import Mathlib

/-!
Verification of the AIVMS recording backend core against its specification.

Each section embeds one Python component of the repository as executable
Lean definitions (a shallow embedding: dictionaries become association
lists or records, wall-clock times become integers in milliseconds or
rationals in seconds, SQLite tables become lists of records, the write
queue becomes a list) and proves or refutes the spec claims about it.
-/

namespace Aivms

/-! ## Recovery tracker (`src/services/recovery_tracker.py`)

`RecoveryTracker.record_error` / `_should_trigger_recovery` touch only the
dictionary entries of the one camera passed in, so the state is embedded
per camera.  A missing dictionary key is `none`; `dict.get(k, 0)` becomes
`Option.getD 0`.  `time.time()` values are embedded as whole seconds
(`ℤ`); the code only compares differences of such times against the
integer thresholds 60 and 30, so integer sample times capture the float
arithmetic exactly. -/

structure CamTracker where
  errorCount : Nat
  lastErrorTime : Option ℤ
  lastRecoveryTime : Option ℤ
  recoveryCount : Nat
  deriving Repr, DecidableEq

/-- Fresh per-camera state: the constructor initialises counts to zero and
leaves the time dictionaries empty. -/
def CamTracker.init : CamTracker :=
  { errorCount := 0, lastErrorTime := none, lastRecoveryTime := none, recoveryCount := 0 }

/-- `RecoveryTracker._should_trigger_recovery`, called by `record_error`
after it has already incremented the error count and set
`camera_last_error_time[camera_id] = current_time`.  The reset branch
writes `camera_error_counts[camera_id] = 1`; the returned state carries
that write. -/
def shouldTriggerRecovery (st : CamTracker) (currentTime : ℤ) : Bool × CamTracker :=
  let errorCount := st.errorCount
  let lastErrorTime := st.lastErrorTime.getD 0
  let lastRecoveryTime := st.lastRecoveryTime.getD 0
  let timeSinceLastError := currentTime - lastErrorTime
  if timeSinceLastError > 60 then
    (false, { st with errorCount := 1 })
  else
    let timeSinceLastRecovery := currentTime - lastRecoveryTime
    if timeSinceLastRecovery < 30 then
      (false, st)
    else
      (decide (errorCount ≥ 5), st)

/-- `RecoveryTracker.record_error` restricted to one camera: append event
(not modelled), ensure the count key exists, increment the count, stamp
`camera_last_error_time`, then consult `_should_trigger_recovery`; on a
trigger, bump the recovery count and stamp `camera_last_recovery_time`. -/
def recordError (st : CamTracker) (currentTime : ℤ) : Bool × CamTracker :=
  let st1 := { st with
    errorCount := st.errorCount + 1,
    lastErrorTime := some currentTime }
  let res := shouldTriggerRecovery st1 currentTime
  if res.1 then
    (true, { res.2 with
      recoveryCount := res.2.recoveryCount + 1,
      lastRecoveryTime := some currentTime })
  else
    (false, res.2)

/-- Run `record_error` once per listed call time, collecting the returned
booleans. -/
def recordErrorRun (st : CamTracker) : List ℤ → List Bool × CamTracker
  | [] => ([], st)
  | t :: ts =>
    let r := recordError st t
    let rest := recordErrorRun r.2 ts
    (r.1 :: rest.1, rest.2)

/-- C1: `record_error` stamps `camera_last_error_time` with the current
time *before* `_should_trigger_recovery` reads it back, so the "time since
last error" it tests is always zero and the `> 60 s` reset branch can
never fire.  Five errors spaced 120 s apart (every gap exceeding the 60 s
window, which per the claim should reset the count to 1 and return false
each time) instead accumulate the count to 5 and make the fifth call
return true. -/
theorem recordError_ignores_error_window :
    (recordErrorRun CamTracker.init [0, 120, 240, 360, 480]).1
        = [false, false, false, false, true]
      ∧ (recordErrorRun CamTracker.init [0, 120, 240, 360, 480]).2.errorCount = 5
      ∧ (∀ st : CamTracker, ∀ t : ℤ,
          (shouldTriggerRecovery
            { st with errorCount := st.errorCount + 1, lastErrorTime := some t } t).2.errorCount
            = st.errorCount + 1) := by
  refine ⟨by decide, by decide, ?_⟩
  intro st t
  simp only [shouldTriggerRecovery]
  split
  case isTrue h => simp at h
  case isFalse h => split <;> rfl

/-! ## Playback manager (`src/services/playback_manager.py`)

Wall-clock instants (`datetime`) are embedded as integer milliseconds;
the source parses them from ISO strings at millisecond resolution, so
this is exact.  A segment carries the fields `generate_hls_playlist` and
`get_playback_info` read. -/

structure PbSegment where
  camera : String
  startMs : ℤ
  durationMs : ℤ
  path : String
  fileSize : ℕ
  isValid : Bool
  deriving Repr, DecidableEq

instance : Inhabited PbSegment :=
  ⟨{ camera := "", startMs := 0, durationMs := 0, path := "", fileSize := 0, isValid := true }⟩

/-- The `#EXTINF` durations (in seconds, as exact rationals) that
`generate_hls_playlist` writes, one per segment in order: for each
segment but the last, the wall-clock gap to the next segment's start; for
the last segment, its own `duration_ms / 1000`.  The `:.3f` formatting in
the source rounds to milliseconds, which is exact for millisecond-resolution
inputs, so these rationals are the printed values. -/
def extinfDurations : List PbSegment → List ℚ
  | [] => []
  | [s] => [(s.durationMs : ℚ) / 1000]
  | s :: t :: rest => ((t.startMs - s.startMs : ℤ) : ℚ) / 1000 :: extinfDurations (t :: rest)

/-- The `total_duration_ms` computed by `get_playback_info`:
`int((last_segment_end − first_segment_start).total_seconds() * 1000)`,
where `last_segment_end = last.start + timedelta(milliseconds=last.duration_ms)`.
At millisecond resolution the float round-trip is the identity. -/
def totalDurationMs : List PbSegment → ℤ
  | [] => 0
  | s :: rest =>
    let last := (s :: rest).getLast (by simp)
    last.startMs + last.durationMs - s.startMs

/-- `RecordingIndex.get_segments`: `camera_id` match, `is_valid = 1`,
`start_time ∈ [t0, t1)`, ordered by `start_time` ascending (the stored
rows are embedded as an arbitrary list and sorted as SQLite's
`ORDER BY start_time ASC` does; insertion sort is a stable sort). -/
def getSegments (db : List PbSegment) (camera : String) (t0 t1 : ℤ) : List PbSegment :=
  List.insertionSort (fun a b => a.startMs ≤ b.startMs)
    (db.filter (fun s =>
      s.camera = camera && s.isValid && t0 ≤ s.startMs && s.startMs < t1))

/-- `PlaybackManager.validate_time_range` with the default
`max_duration_hours = 24`: rejects `start ≥ end` and spans strictly above
24 h. -/
def validateTimeRange (t0 t1 : ℤ) : Bool :=
  if t0 ≥ t1 then false
  else if t1 - t0 > 86400000 then false
  else true

/-- The result dictionary of `get_playback_info`, keeping the keys the
claims are about; a `none` field is a key absent from the returned dict. -/
structure PlaybackInfo where
  error : Option String
  segments : Option (List PbSegment)
  segmentCount : Option ℕ
  totalDuration : Option ℤ
  totalSizeBytes : Option ℕ
  deriving Repr, DecidableEq

/-- `PlaybackManager.get_playback_info`: validation failure returns only
an error; an empty segment query returns `segments: []` together with an
`error` key; otherwise the full info dict.  `get_segments_for_playback`
is the query plus a field-by-field repack, which is the identity on the
fields kept here. -/
def getPlaybackInfo (db : List PbSegment) (camera : String) (t0 t1 : ℤ) : PlaybackInfo :=
  if validateTimeRange t0 t1 = false then
    { error := some "Invalid time range", segments := none, segmentCount := none,
      totalDuration := none, totalSizeBytes := none }
  else
    let segs := getSegments db camera t0 t1
    if segs.isEmpty then
      { error := some "No segments found for time range", segments := some [],
        segmentCount := none, totalDuration := none, totalSizeBytes := none }
    else
      { error := none, segments := some segs, segmentCount := some segs.length,
        totalDuration := some (totalDurationMs segs),
        totalSizeBytes := some (segs.map (fun s => s.fileSize)).sum }

theorem extinfDurations_length (segs : List PbSegment) :
    (extinfDurations segs).length = segs.length := by
  induction segs with
  | nil => rfl
  | cons s rest ih =>
    cases rest with
    | nil => rfl
    | cons t rest' => simpa [extinfDurations] using ih

theorem extinfDurations_getD_inner (segs : List PbSegment) :
    ∀ i, i + 1 < segs.length →
      (extinfDurations segs).getD i 0
        = (((segs.getD (i + 1) default).startMs - (segs.getD i default).startMs : ℤ) : ℚ)
            / 1000 := by
  induction segs with
  | nil => intro i hi; simp at hi
  | cons s rest ih =>
    intro i hi
    cases rest with
    | nil => simp at hi
    | cons t rest' =>
      cases i with
      | zero => simp [extinfDurations]
      | succ j =>
        have hj : j + 1 < (t :: rest').length := by simpa using hi
        simpa [extinfDurations] using ih j hj

theorem extinfDurations_getD_last (segs : List PbSegment) (hne : segs ≠ []) :
    (extinfDurations segs).getD (segs.length - 1) 0
      = ((segs.getLast hne).durationMs : ℚ) / 1000 := by
  induction segs with
  | nil => simp at hne
  | cons s rest ih =>
    cases rest with
    | nil => simp [extinfDurations]
    | cons t rest' =>
      have h := ih (by simp)
      simpa [extinfDurations, List.getLast] using h

/-- C3: the i-th `#EXTINF` equals the start-time gap to segment i+1 for
every i < n−1, the last `#EXTINF` equals the last segment's
`duration_ms / 1000` (so for n = 1 the playlist carries exactly one
`#EXTINF` equal to `duration_ms / 1000`), and `total_duration_ms` is
`last.start + last.duration − first.start`, not the sum of the
`#EXTINF` values. -/
theorem playlist_gap_durations (segs : List PbSegment) (hne : segs ≠ [])
    (hsorted : segs.Pairwise (fun a b => a.startMs ≤ b.startMs)) :
    (extinfDurations segs).length = segs.length
      ∧ (∀ i, i + 1 < segs.length →
          (extinfDurations segs).getD i 0
            = (((segs.getD (i + 1) default).startMs - (segs.getD i default).startMs : ℤ) : ℚ)
                / 1000)
      ∧ (extinfDurations segs).getD (segs.length - 1) 0
          = ((segs.getLast hne).durationMs : ℚ) / 1000
      ∧ totalDurationMs segs
          = (segs.getLast hne).startMs + (segs.getLast hne).durationMs
              - (segs.head hne).startMs := by
  refine ⟨extinfDurations_length segs, extinfDurations_getD_inner segs,
    extinfDurations_getD_last segs hne, ?_⟩
  cases segs with
  | nil => simp at hne
  | cons s rest => simp [totalDurationMs]

/-- The two segments of spec scenario 6: wall-clock starts 0 ms and
2500 ms, nominal duration 3000 ms. -/
def demoPlaybackSegs : List PbSegment :=
  [{ camera := "cam1", startMs := 0, durationMs := 3000,
     path := "/storage/cam1/2025-01-01/a.mp4", fileSize := 2048, isValid := true },
   { camera := "cam1", startMs := 2500, durationMs := 3000,
     path := "/storage/cam1/2025-01-01/b.mp4", fileSize := 2048, isValid := true }]

theorem playlist_gap_durations_witness :
    demoPlaybackSegs ≠ []
      ∧ demoPlaybackSegs.Pairwise (fun a b => a.startMs ≤ b.startMs)
      ∧ ((extinfDurations demoPlaybackSegs).length = demoPlaybackSegs.length
        ∧ (∀ i, i + 1 < demoPlaybackSegs.length →
            (extinfDurations demoPlaybackSegs).getD i 0
              = (((demoPlaybackSegs.getD (i + 1) default).startMs
                    - (demoPlaybackSegs.getD i default).startMs : ℤ) : ℚ) / 1000)
        ∧ (extinfDurations demoPlaybackSegs).getD (demoPlaybackSegs.length - 1) 0
            = ((demoPlaybackSegs.getLast (by decide)).durationMs : ℚ) / 1000
        ∧ totalDurationMs demoPlaybackSegs
            = (demoPlaybackSegs.getLast (by decide)).startMs
                + (demoPlaybackSegs.getLast (by decide)).durationMs
                - (demoPlaybackSegs.head (by decide)).startMs) :=
  ⟨by decide, by decide,
    playlist_gap_durations demoPlaybackSegs (by decide) (by decide)⟩

/-- C4 counterexample: a range that passes validation but matches no
segments (here [0 ms, 60000 ms) against an empty index — a range entirely
in the future of all recordings) does return an empty segment list, but
the response also carries an `error` key, which `GET /api/playback/<cam>`
turns into an HTTP 404 — so it is surfaced as an error, contrary to the
claim. -/
theorem getPlaybackInfo_empty_carries_error :
    validateTimeRange 0 60000 = true
      ∧ (getPlaybackInfo [] "cam1" 0 60000).segments = some []
      ∧ (getPlaybackInfo [] "cam1" 0 60000).error ≠ none := by
  refine ⟨by decide, by decide, by decide⟩

/-- C4 amended: the resolver's `Invalid time range` validation error
appears exactly when `t0 ≥ t1` or `t1 − t0 > 24 h`; a range that passes
validation but matches no segments returns an empty segment list, yet
that response also carries the error string
`No segments found for time range` (which callers treat as an error). -/
theorem getPlaybackInfo_validation (db : List PbSegment) (camera : String) (t0 t1 : ℤ) :
    ((getPlaybackInfo db camera t0 t1).error = some "Invalid time range"
        ↔ (t0 ≥ t1 ∨ t1 - t0 > 86400000))
      ∧ (validateTimeRange t0 t1 = true → getSegments db camera t0 t1 = [] →
          (getPlaybackInfo db camera t0 t1).segments = some []
            ∧ (getPlaybackInfo db camera t0 t1).error
                = some "No segments found for time range") := by
  have hval : validateTimeRange t0 t1 = false ↔ (t0 ≥ t1 ∨ t1 - t0 > 86400000) := by
    unfold validateTimeRange
    by_cases h1 : t0 ≥ t1 <;> by_cases h2 : t1 - t0 > 86400000 <;> simp [h1, h2]
  constructor
  · constructor
    · intro h
      by_cases hv : validateTimeRange t0 t1 = false
      · exact hval.mp hv
      · exfalso
        simp only [getPlaybackInfo, hv, if_false] at h
        by_cases he : (getSegments db camera t0 t1).isEmpty <;> simp [he] at h
    · intro h
      simp [getPlaybackInfo, hval.mpr h]
  · intro hv he
    have hv' : ¬ validateTimeRange t0 t1 = false := by simp [hv]
    constructor <;> simp [getPlaybackInfo, hv', he]

theorem getPlaybackInfo_validation_witness :
    validateTimeRange 0 60000 = true
      ∧ getSegments [] "cam1" 0 60000 = []
      ∧ (((getPlaybackInfo [] "cam1" 0 60000).error = some "Invalid time range"
            ↔ ((0 : ℤ) ≥ 60000 ∨ (60000 : ℤ) - 0 > 86400000))
        ∧ ((getPlaybackInfo [] "cam1" 0 60000).segments = some []
            ∧ (getPlaybackInfo [] "cam1" 0 60000).error
                = some "No segments found for time range")) :=
  ⟨by decide, by decide,
    ⟨(getPlaybackInfo_validation [] "cam1" 0 60000).1,
      (getPlaybackInfo_validation [] "cam1" 0 60000).2 (by decide) (by decide)⟩⟩

/-! ## Segment file serving (`PlaybackManager.get_segment_file`)

Lean's built-in `String.startsWith`/`splitOn` are `Substring`-based and
do not reduce in the kernel, so the path functions below are defined over
`String.data` (unicode code point lists), which is the same data. -/

/-- `str.startswith(pre)`. -/
def strStartsWith (s pre : String) : Bool :=
  List.isPrefixOf pre.data s.data

/-- Split a path string on `/`, like Python `str.split("/")` /
`pathlib`'s component view. -/
def splitSlash (s : String) : List String :=
  (List.splitOn '/' s.data).map (fun cs => String.mk cs)

def joinSlash : List String → String
  | [] => ""
  | [c] => c
  | c :: rest => c ++ "/" ++ joinSlash rest

/-- `pathlib`'s `/` operator on string paths: a right operand that is
absolute replaces the left, otherwise the components are joined with a
separator (the platform separator is `/`; `segment_path.replace('/',
os.sep)` is then the identity). -/
def joinPath (a b : String) : String :=
  if strStartsWith b "/" then b else a ++ "/" ++ b

/-- Resolve `.` and `..` components of an absolute path, as the operating
system does when `open()` is finally called on the composed path.  The
source never performs this step before its prefix check. -/
def canonicalize (p : String) : String :=
  let comps := (splitSlash p).foldl
    (fun acc c =>
      if c = "" || c = "." then acc
      else if c = ".." then acc.dropLast
      else acc ++ [c]) ([] : List String)
  "/" ++ joinSlash comps

/-- `PlaybackManager.get_segment_file`.  The filesystem is a finite map
from canonical absolute path to file bytes; `full_path.exists()` /
`open(full_path)` go through the OS, i.e. through `canonicalize`.  The
guard itself is the raw string-prefix test on the *uncanonicalized*
composed path, exactly as in the source. -/
def getSegmentFile (fs : List (String × List ℕ))
    (storageRoot camera segmentPath : String) : Option (List ℕ) :=
  let osSegmentPath := segmentPath
  let fullPath := joinPath (joinPath storageRoot camera) osSegmentPath
  if strStartsWith fullPath storageRoot = false then none
  else
    match fs.lookup (canonicalize fullPath) with
    | none => none
    | some content => some content

/-- A filesystem holding a single file outside the storage root. -/
def demoTraversalFs : List (String × List ℕ) :=
  [("/etc/passwd", [114, 111, 111, 116])]

/-- C10: file bytes are returned only when the uncanonicalized composed
path string has the storage root as a string prefix; when the prefix test
fails the result is `None`; and because the path is never canonicalized
before the check, the relative path `../../etc/passwd` keeps the prefix
and is read and served even though it resolves to `/etc/passwd`, outside
the camera's directory (and outside the storage root altogether). -/
theorem getSegmentFile_prefix_only (fs : List (String × List ℕ))
    (root camera p : String) :
    ((getSegmentFile fs root camera p).isSome = true →
        strStartsWith (joinPath (joinPath root camera) p) root = true)
      ∧ (strStartsWith (joinPath (joinPath root camera) p) root = false →
          getSegmentFile fs root camera p = none)
      ∧ (getSegmentFile demoTraversalFs "/storage" "cam1" "../../etc/passwd"
            = some [114, 111, 111, 116]
        ∧ canonicalize (joinPath (joinPath "/storage" "cam1") "../../etc/passwd")
            = "/etc/passwd"
        ∧ strStartsWith "/etc/passwd" "/storage" = false) := by
  refine ⟨?_, ?_, by decide, by decide, by decide⟩
  · intro h
    by_cases hp : strStartsWith (joinPath (joinPath root camera) p) root = false
    · simp [getSegmentFile, hp] at h
    · simpa using hp
  · intro hp
    simp [getSegmentFile, hp]

theorem getSegmentFile_prefix_only_witness :
    (getSegmentFile demoTraversalFs "/storage" "cam1" "../../etc/passwd").isSome = true
      ∧ strStartsWith
          (joinPath (joinPath "/storage" "cam1") "../../etc/passwd") "/storage" = true :=
  ⟨by decide,
    (getSegmentFile_prefix_only demoTraversalFs "/storage" "cam1" "../../etc/passwd").1
      (by decide)⟩

/-! ## Recording index store (`src/services/recording_index.py`)

The SQLite `recordings` table is a list of records; the
`write_queue = queue.Queue()` (created with no size bound) is a list of
pending operations.  The only operation type any producer in the
repository ever enqueues is `('insert_recording', …)`, so a queue entry
is the record to insert; `mark_invalid`, `delete_segment` and
`delete_segments_batch` open their own connection and execute their SQL
on the calling thread under `self.lock`, which the embedding renders as
an immediate update of `db`. -/

structure IndexRecord where
  camera : String
  cameraName : String
  path : String
  startTimeMs : ℤ
  durationMs : ℤ
  fileSize : ℕ
  isValid : Bool
  deriving Repr, DecidableEq

structure IndexStore where
  queue : List IndexRecord
  db : List IndexRecord
  deriving Repr, DecidableEq

/-- `RecordingIndex.add_recording`: build the INSERT parameters and put
them on the write queue; the table itself is untouched until the writer
thread dequeues.  Returns `True` (queued). -/
def addRecording (st : IndexStore) (camera cameraName path : String)
    (startTimeMs durationMs : ℤ) (fileSize : ℕ) : Bool × IndexStore :=
  (true, { st with queue := st.queue ++
    [{ camera := camera, cameraName := cameraName, path := path,
       startTimeMs := startTimeMs, durationMs := durationMs,
       fileSize := fileSize, isValid := true }] })

/-- `RecordingIndex.mark_invalid`: `UPDATE recordings SET is_valid = 0
WHERE segment_path = ?`, executed directly on the calling thread. -/
def markInvalid (st : IndexStore) (path : String) : Bool × IndexStore :=
  (true,
    { st with db :=
        st.db.map (fun r => if r.path = path then { r with isValid := false } else r) })

/-- `RecordingIndex.delete_segment`: `DELETE FROM recordings WHERE
segment_path = ?`, executed directly on the calling thread. -/
def deleteSegment (st : IndexStore) (path : String) : Bool × IndexStore :=
  (true, { st with db := st.db.filter (fun r => !(r.path = path)) })

/-- `RecordingIndex.delete_segments_batch`: empty input short-circuits to
0, otherwise one `executemany` DELETE on the calling thread; returns the
number of rows removed. -/
def deleteSegmentsBatch (st : IndexStore) (paths : List String) : ℕ × IndexStore :=
  if paths.isEmpty then (0, st)
  else
    let newDb := st.db.filter (fun r => !(paths.contains r.path))
    (st.db.length - newDb.length, { st with db := newDb })

/-- C2 counterexample: on a store holding one record and an empty queue,
`mark_invalid`, `delete_segment` and `delete_segments_batch` each change
the persistent table immediately on the calling task and enqueue
nothing — refuting the claim that every mutating operation only enqueues
onto the writer queue and that no task but the writer mutates the store. -/
theorem indexStore_deletes_bypass_queue :
    let r0 : IndexRecord :=
      { camera := "cam1", cameraName := "Cam 1", path := "/storage/cam1/a.mp4",
        startTimeMs := 0, durationMs := 3000, fileSize := 2048, isValid := true }
    let st0 : IndexStore := { queue := [], db := [r0] }
    ((markInvalid st0 "/storage/cam1/a.mp4").2.db ≠ st0.db
        ∧ (markInvalid st0 "/storage/cam1/a.mp4").2.queue = st0.queue)
      ∧ ((deleteSegment st0 "/storage/cam1/a.mp4").2.db ≠ st0.db
        ∧ (deleteSegment st0 "/storage/cam1/a.mp4").2.queue = st0.queue)
      ∧ ((deleteSegmentsBatch st0 ["/storage/cam1/a.mp4"]).2.db ≠ st0.db
        ∧ (deleteSegmentsBatch st0 ["/storage/cam1/a.mp4"]).2.queue = st0.queue) := by
  refine ⟨⟨by decide, by decide⟩, ⟨by decide, by decide⟩, ⟨by decide, by decide⟩⟩

/-- C2 amended: only `add_recording` goes through the producer/consumer
queue (it appends one insert operation and leaves the table alone);
`mark_invalid`, `delete_segment` and `delete_segments_batch` leave the
queue alone and take effect on the table immediately, on the calling
task. -/
theorem indexStore_write_discipline (st : IndexStore)
    (camera cameraName path : String) (startTimeMs durationMs : ℤ) (fileSize : ℕ)
    (paths : List String) :
    ((addRecording st camera cameraName path startTimeMs durationMs fileSize).2.db = st.db
      ∧ (addRecording st camera cameraName path startTimeMs durationMs fileSize).2.queue
          = st.queue ++
            [{ camera := camera, cameraName := cameraName, path := path,
               startTimeMs := startTimeMs, durationMs := durationMs,
               fileSize := fileSize, isValid := true }])
      ∧ ((markInvalid st path).2.queue = st.queue
        ∧ ∀ r ∈ (markInvalid st path).2.db, r.path = path → r.isValid = false)
      ∧ ((deleteSegment st path).2.queue = st.queue
        ∧ ∀ r ∈ (deleteSegment st path).2.db, r.path ≠ path)
      ∧ ((deleteSegmentsBatch st paths).2.queue = st.queue
        ∧ (paths ≠ [] → ∀ r ∈ (deleteSegmentsBatch st paths).2.db,
            paths.contains r.path = false)) := by
  refine ⟨⟨rfl, rfl⟩, ⟨rfl, ?_⟩, ⟨rfl, ?_⟩, ⟨?_, ?_⟩⟩
  · intro r hr hpath
    simp only [markInvalid, List.mem_map] at hr
    obtain ⟨r', _, hmap⟩ := hr
    by_cases h : r'.path = path
    · simp [h] at hmap
      simp [← hmap]
    · simp [h] at hmap
      subst hmap
      exact absurd hpath h
  · intro r hr
    simp only [deleteSegment, List.mem_filter] at hr
    simpa using hr.2
  · simp only [deleteSegmentsBatch]
    by_cases h : paths.isEmpty <;> simp [h]
  · intro hne r hr
    have h : paths.isEmpty = false := by simpa using hne
    simp only [deleteSegmentsBatch, h, Bool.false_eq_true, if_false, List.mem_filter] at hr
    simpa using hr.2

theorem indexStore_write_discipline_witness :
    let r0 : IndexRecord :=
      { camera := "cam1", cameraName := "Cam 1", path := "/storage/cam1/a.mp4",
        startTimeMs := 0, durationMs := 3000, fileSize := 2048, isValid := true }
    let st0 : IndexStore := { queue := [], db := [r0] }
    (markInvalid st0 "/storage/cam1/a.mp4").2.queue = st0.queue
      ∧ (∀ r ∈ (markInvalid st0 "/storage/cam1/a.mp4").2.db,
          r.path = "/storage/cam1/a.mp4" → r.isValid = false)
      ∧ (["/storage/cam1/a.mp4"] ≠ ([] : List String)
          → ∀ r ∈ (deleteSegmentsBatch st0 ["/storage/cam1/a.mp4"]).2.db,
              (["/storage/cam1/a.mp4"]).contains r.path = false) := by
  intro r0 st0
  have h := indexStore_write_discipline st0 "cam1" "Cam 1" "/storage/cam1/a.mp4" 0 3000 2048
    ["/storage/cam1/a.mp4"]
  exact ⟨h.2.1.1, h.2.1.2, h.2.2.2.2⟩

/-! ## Timeline manager (`src/services/timeline_manager.py`)

`update_timeline` looks up the `(camera, date, hour)` bucket derived from
the segment's start time and either updates it by id or inserts a fresh
one.  `start_time.date()` and `.hour` are embedded as epoch-day and
hour-of-day of the millisecond timestamp. -/

structure TimelineBucket where
  camera : String
  date : ℤ
  hour : ℤ
  segmentCount : ℕ
  totalDurationMs : ℤ
  totalSizeBytes : ℤ
  firstSegmentTime : ℤ
  lastSegmentTime : ℤ
  deriving Repr, DecidableEq

instance : Inhabited TimelineBucket :=
  ⟨{ camera := "", date := 0, hour := 0, segmentCount := 0, totalDurationMs := 0,
     totalSizeBytes := 0, firstSegmentTime := 0, lastSegmentTime := 0 }⟩

structure TlSegment where
  startMs : ℤ
  durationMs : ℤ
  fileSize : ℤ
  deriving Repr, DecidableEq

def dateOf (t : ℤ) : ℤ := t / 86400000

def hourOf (t : ℤ) : ℤ := t % 86400000 / 3600000

/-- The `WHERE camera_id = ? AND date = ? AND hour = ?` match. -/
def tlKey (camera : String) (seg : TlSegment) (b : TimelineBucket) : Bool :=
  b.camera = camera && b.date = dateOf seg.startMs && b.hour = hourOf seg.startMs

/-- Apply `f` to the first element matching `p` (the SQL `UPDATE … WHERE
id = ?` on the row `fetchone` returned). -/
def updateFirst {α : Type} (p : α → Bool) (f : α → α) : List α → List α
  | [] => []
  | x :: rest => if p x then f x :: rest else x :: updateFirst p f rest

/-- The `UPDATE` branch of `update_timeline`: count +1, duration and size
accumulated, `last_segment_time` overwritten with the new start;
`first_segment_time` is not in the SET list. -/
def tlBump (seg : TlSegment) (b : TimelineBucket) : TimelineBucket :=
  { b with
    segmentCount := b.segmentCount + 1,
    totalDurationMs := b.totalDurationMs + seg.durationMs,
    totalSizeBytes := b.totalSizeBytes + seg.fileSize,
    lastSegmentTime := seg.startMs }

/-- `TimelineManager.update_timeline`. -/
def updateTimeline (buckets : List TimelineBucket) (camera : String)
    (seg : TlSegment) : List TimelineBucket :=
  match buckets.find? (tlKey camera seg) with
  | some _ => updateFirst (tlKey camera seg) (tlBump seg) buckets
  | none => buckets ++
      [{ camera := camera, date := dateOf seg.startMs, hour := hourOf seg.startMs,
         segmentCount := 1, totalDurationMs := seg.durationMs,
         totalSizeBytes := seg.fileSize, firstSegmentTime := seg.startMs,
         lastSegmentTime := seg.startMs }]

theorem find?_updateFirst {α : Type} (p : α → Bool) (f : α → α)
    (hpf : ∀ x, p x = true → p (f x) = true) :
    ∀ l : List α, (updateFirst p f l).find? p = (l.find? p).map f := by
  intro l
  induction l with
  | nil => rfl
  | cons x rest ih =>
    by_cases hx : p x = true
    · simp [updateFirst, hx, List.find?_cons, hpf x hx]
    · have hx' : p x = false := by simpa using hx
      simp [updateFirst, hx', List.find?_cons, ih]

/-- C9 counterexample: a bucket for hour 0 whose `first_segment_time` and
`last_segment_time` are 2 000 000 ms receives an out-of-order segment of
the same hour starting at 1 000 000 ms.  The upsert leaves
`first_segment_time` at 2 000 000 ms — later than the new segment's start —
so the bucket times do not cover the inserted segment, refuting the
claim. -/
theorem updateTimeline_first_not_extended :
    let b0 : TimelineBucket :=
      { camera := "cam1", date := 0, hour := 0, segmentCount := 1,
        totalDurationMs := 3000, totalSizeBytes := 2048,
        firstSegmentTime := 2000000, lastSegmentTime := 2000000 }
    let seg : TlSegment := { startMs := 1000000, durationMs := 3000, fileSize := 2048 }
    updateTimeline [b0] "cam1" seg
        = [{ camera := "cam1", date := 0, hour := 0, segmentCount := 2,
             totalDurationMs := 6000, totalSizeBytes := 4096,
             firstSegmentTime := 2000000, lastSegmentTime := 1000000 }]
      ∧ ¬ ((updateTimeline [b0] "cam1" seg).getD 0 default).firstSegmentTime
            ≤ seg.startMs := by
  refine ⟨by decide, by decide⟩

/-- C9 amended: inserting into an existing `(camera, date, hour)` bucket
increments `segment_count` by 1, adds the segment's `duration_ms` and
`file_size` to the running totals, and overwrites `last_segment_time`
with the segment's start time (so it is never earlier than that start);
`first_segment_time` is left unchanged, so it still covers the new
segment only when the insert is not older than the bucket's recorded
first time. -/
theorem updateTimeline_upsert_existing (buckets : List TimelineBucket)
    (camera : String) (seg : TlSegment) (b0 : TimelineBucket)
    (h : buckets.find? (tlKey camera seg) = some b0) :
    (updateTimeline buckets camera seg).find? (tlKey camera seg)
        = some { b0 with
            segmentCount := b0.segmentCount + 1,
            totalDurationMs := b0.totalDurationMs + seg.durationMs,
            totalSizeBytes := b0.totalSizeBytes + seg.fileSize,
            lastSegmentTime := seg.startMs }
      ∧ (tlBump seg b0).lastSegmentTime = seg.startMs
      ∧ (tlBump seg b0).firstSegmentTime = b0.firstSegmentTime := by
  refine ⟨?_, rfl, rfl⟩
  have hpf : ∀ b, tlKey camera seg b = true → tlKey camera seg (tlBump seg b) = true := by
    intro b hb
    simpa [tlKey, tlBump] using hb
  simp [updateTimeline, h, find?_updateFirst (tlKey camera seg) (tlBump seg) hpf, tlBump]

theorem updateTimeline_upsert_existing_witness :
    let b0 : TimelineBucket :=
      { camera := "cam1", date := 0, hour := 0, segmentCount := 1,
        totalDurationMs := 3000, totalSizeBytes := 2048,
        firstSegmentTime := 2000000, lastSegmentTime := 2000000 }
    let seg : TlSegment := { startMs := 1000000, durationMs := 3000, fileSize := 2048 }
    ([b0].find? (tlKey "cam1" seg) = some b0)
      ∧ (updateTimeline [b0] "cam1" seg).find? (tlKey "cam1" seg)
          = some { b0 with
              segmentCount := b0.segmentCount + 1,
              totalDurationMs := b0.totalDurationMs + seg.durationMs,
              totalSizeBytes := b0.totalSizeBytes + seg.fileSize,
              lastSegmentTime := seg.startMs } := by
  intro b0 seg
  exact ⟨by decide, (updateTimeline_upsert_existing [b0] "cam1" seg b0 (by decide)).1⟩

/-! ## Segment writer tick (`src/services/recording_engine.py`)

One poll tick of `_process_hls_stream` after the media playlist has been
fetched: parse the playlist, filter the segment URIs, diff against
`last_segment_urls`, download/write/index what is new.  Substring tests
are over `String.data` as above. -/

/-- `pat in s` (Python substring containment) over code-point lists. -/
def charsInfix (pat : List Char) : List Char → Bool
  | [] => pat.isEmpty
  | c :: rest => List.isPrefixOf pat (c :: rest) || charsInfix pat rest

def strContains (s pat : String) : Bool :=
  charsInfix pat.data s.data

/-- Python `str.strip()`: drop whitespace from both ends. -/
def strTrim (s : String) : String :=
  String.mk (((s.data.dropWhile Char.isWhitespace).reverse.dropWhile
    Char.isWhitespace).reverse)

/-- The segment-URI filter of `_parse_segment_playlist`: a non-empty line
not starting with `#`, containing `_seg` and containing neither `_part`
nor `_init`. -/
def lineIsSegmentUri (line : String) : Bool :=
  !(line = "") && !(strStartsWith line "#")
    && strContains line "_seg" && !(strContains line "_part")
    && !(strContains line "_init")

def digitsToInt (cs : List Char) : ℤ :=
  cs.foldl (fun acc c => acc * 10 + ((c.toNat : ℤ) - 48)) 0

/-- `int(line.split(':')[1])` for a well-formed
`#EXT-X-MEDIA-SEQUENCE:<n>` line. -/
def parseMediaSeq (line : String) : ℤ :=
  match List.splitOn ':' line.data with
  | _ :: second :: _ => digitsToInt second
  | _ => 0

/-- `urljoin(base, rel)` for the relative URIs the gateway emits: the
last path component of the base is replaced by `rel`. -/
def urljoinRel (base rel : String) : String :=
  String.mk ((base.data.reverse.dropWhile (fun c => !(c = '/'))).reverse) ++ rel

/-- `RecordingEngine._parse_segment_playlist`: fold over the playlist
lines collecting the media sequence and the filtered, joined segment
URLs in playlist order. -/
def parseSegmentPlaylist (baseUrl : String) (content : List String) : ℤ × List String :=
  content.foldl
    (fun acc rawLine =>
      let line := strTrim rawLine
      if strStartsWith line "#EXT-X-MEDIA-SEQUENCE:" then
        (parseMediaSeq line, acc.2)
      else if lineIsSegmentUri line then
        (acc.1, acc.2 ++ [urljoinRel baseUrl line])
      else acc)
    (0, [])

structure TickResult where
  downloads : List String
  lastSeen : Finset String
  deriving DecidableEq

/-- The new-segment step of one `_process_hls_stream` poll tick:
`current_segment_urls = set(segments)`, `new_segments = current −
last_segment_urls`; when non-empty, each playlist-order URL in the
difference is downloaded, prepended with the init segment, written and
indexed (the `downloads` list — one file write and one
`add_recording` per entry), and `last_segment_urls` is replaced;
when empty, nothing is downloaded, written or indexed and the set is
left alone.  The parsed media sequence is never consulted. -/
def processTick (lastSeen : Finset String) (baseUrl : String)
    (lines : List String) : TickResult :=
  let segments := (parseSegmentPlaylist baseUrl lines).2
  let current := segments.toFinset
  let newSegments := current \ lastSeen
  if newSegments = ∅ then
    { downloads := [], lastSeen := lastSeen }
  else
    { downloads := segments.filter (fun u => u ∈ newSegments), lastSeen := current }

/-- C8: when a poll parses to the same filtered segment-URL set as the
previous poll — even if the `#EXT-X-MEDIA-SEQUENCE` value or the line
order changed, as after a gateway sequence reset — the URL-set
difference is empty and the tick downloads nothing, writes nothing and
indexes nothing, leaving `last_segment_urls` unchanged. -/
theorem tick_no_duplicates_on_same_urls (lastSeen₀ : Finset String)
    (base : String) (prevLines lines : List String)
    (hsame : ((parseSegmentPlaylist base lines).2).toFinset
        = ((parseSegmentPlaylist base prevLines).2).toFinset) :
    ((parseSegmentPlaylist base lines).2).toFinset
        \ (processTick lastSeen₀ base prevLines).lastSeen = ∅
      ∧ processTick (processTick lastSeen₀ base prevLines).lastSeen base lines
          = { downloads := [],
              lastSeen := (processTick lastSeen₀ base prevLines).lastSeen } := by
  have tickE : ∀ (ls : Finset String) (ll : List String),
      ((parseSegmentPlaylist base ll).2).toFinset \ ls = ∅ →
      processTick ls base ll = { downloads := [], lastSeen := ls } := by
    intro ls ll h
    simp only [processTick]
    rw [if_pos h]
  have tickN : ∀ (ls : Finset String) (ll : List String),
      ¬ ((parseSegmentPlaylist base ll).2.toFinset \ ls = ∅) →
      (processTick ls base ll).lastSeen = (parseSegmentPlaylist base ll).2.toFinset := by
    intro ls ll h
    simp only [processTick]
    rw [if_neg h]
  by_cases h1 : ((parseSegmentPlaylist base prevLines).2).toFinset \ lastSeen₀ = ∅
  · have ht1 : (processTick lastSeen₀ base prevLines).lastSeen = lastSeen₀ := by
      rw [tickE lastSeen₀ prevLines h1]
    have hd : ((parseSegmentPlaylist base lines).2).toFinset
        \ (processTick lastSeen₀ base prevLines).lastSeen = ∅ := by
      rw [ht1, hsame]; exact h1
    exact ⟨hd, by rw [tickE _ lines hd]⟩
  · have ht1 := tickN lastSeen₀ prevLines h1
    have hd : ((parseSegmentPlaylist base lines).2).toFinset
        \ (processTick lastSeen₀ base prevLines).lastSeen = ∅ := by
      rw [ht1, hsame]; exact Finset.sdiff_self _
    exact ⟨hd, tickE _ lines hd⟩

/-- A media playlist and its replay after a sequence reset: the sequence
number dropped from 7 to 0 and the lines are reordered, but the filtered
URL set is unchanged. -/
def demoPlaylist : List String :=
  ["#EXTM3U", "#EXT-X-MEDIA-SEQUENCE:7", "cam1_seg100.mp4",
   "cam1_part3.mp4", "cam1_seg101.mp4"]

def demoPlaylistReplayed : List String :=
  ["#EXTM3U", "#EXT-X-MEDIA-SEQUENCE:0", "cam1_seg101.mp4", "cam1_seg100.mp4"]

theorem tick_no_duplicates_on_same_urls_witness :
    ((parseSegmentPlaylist "http://gw/cam1/index.m3u8" demoPlaylistReplayed).2).toFinset
        = ((parseSegmentPlaylist "http://gw/cam1/index.m3u8" demoPlaylist).2).toFinset
      ∧ processTick
            (processTick ∅ "http://gw/cam1/index.m3u8" demoPlaylist).lastSeen
            "http://gw/cam1/index.m3u8" demoPlaylistReplayed
          = { downloads := [],
              lastSeen :=
                (processTick ∅ "http://gw/cam1/index.m3u8" demoPlaylist).lastSeen } :=
  ⟨by decide,
    (tick_no_duplicates_on_same_urls ∅ "http://gw/cam1/index.m3u8" demoPlaylist
      demoPlaylistReplayed (by decide)).2⟩

/-! ## Orphan reconciler (`src/services/recovery_manager.py`)

`verify_and_recover` runs `_verify_indexed_files`, then
`_find_orphaned_files` (which delegates to
`RecordingIndex.recover_orphaned_files` with batch size 100), then
`_verify_file_integrity`.  Each pass logs its banner when it starts; the
banner order is recorded in `passTrace`.  `mark_invalid` and
`log_recovery_event` write directly (see the index-store embedding);
`add_recording` enqueues, so orphan inserts land in `queuedInserts`.
The two verification passes share one shape — snapshot the valid rows,
then mark-and-log every row failing the pass's predicate — captured by
`sweepStep`. -/

inductive RecoveryPass
  | missingFiles
  | orphanScan
  | integrityCheck
  deriving DecidableEq, Repr

structure RmRecord where
  camera : String
  path : String
  isValid : Bool
  deriving Repr, DecidableEq

structure RmFile where
  path : String
  content : List ℕ
  mtimeMs : ℤ
  deriving Repr, DecidableEq

/-- An `add_recording` call queued by the orphan pass: `start_time_ms`
from the file's mtime, `duration_ms = 3000`, size from `stat`.  (The
cosmetic `camera_name` string derived from the camera id is not
modelled.) -/
structure OrphanInsert where
  camera : String
  path : String
  startTimeMs : ℤ
  durationMs : ℤ
  fileSize : ℕ
  deriving Repr, DecidableEq

structure RmState where
  records : List RmRecord
  disk : List RmFile
  recoveryLog : List (String × String)
  queuedInserts : List OrphanInsert
  passTrace : List RecoveryPass
  deriving Repr, DecidableEq

/-- `os.path.exists` / `open` against the modelled filesystem. -/
def diskLookup (disk : List RmFile) (p : String) : Option RmFile :=
  disk.find? (fun f => f.path = p)

/-- The `UPDATE … SET is_valid = 0 WHERE segment_path = ?` effect of
`mark_invalid` on the recordings rows. -/
def rmMarkInvalid (l : List RmRecord) (p : String) : List RmRecord :=
  l.map (fun r => if r.path = p then { r with isValid := false } else r)

/-- `RecoveryManager._is_file_valid`: exists, at least 1024 bytes, and
the 8-byte header has `ftyp`/`moof`/`mdat`/`free` at offset 4 or the
MPEG-TS sync byte `0x47` first. -/
def fileValid (fo : Option RmFile) : Bool :=
  match fo with
  | none => false
  | some f =>
    if f.content.length < 1024 then false
    else
      let header := f.content.take 8
      if (header.drop 4).take 4 = [102, 116, 121, 112]
          ∨ (header.drop 4).take 4 = [109, 111, 111, 102]
          ∨ (header.drop 4).take 4 = [109, 100, 97, 116]
          ∨ (header.drop 4).take 4 = [102, 114, 101, 101]
          ∨ header.take 1 = [71]
      then true else false

/-- One loop iteration shared by `_verify_indexed_files`
(`eventType = MISSING_FILE`, predicate: file absent) and
`_verify_file_integrity` (`eventType = CORRUPTED_FILE`, predicate:
`_is_file_valid` fails): mark the row's path invalid and append a
recovery-log event when the predicate fires. -/
def sweepStep (eventType : String) (cond : List RmFile → RmRecord → Bool)
    (st : RmState) (r : RmRecord) : RmState :=
  if cond st.disk r then
    { st with records := rmMarkInvalid st.records r.path,
              recoveryLog := st.recoveryLog ++ [(r.camera, eventType)] }
  else st

/-- `RecoveryManager._verify_indexed_files`. -/
def missingPass (st : RmState) : RmState :=
  (st.records.filter (fun r => r.isValid)).foldl
    (sweepStep "MISSING_FILE" (fun disk r => (diskLookup disk r.path).isNone))
    { st with passTrace := st.passTrace ++ [RecoveryPass.missingFiles] }

/-- `RecoveryManager._verify_file_integrity`. -/
def integrityPass (st : RmState) : RmState :=
  (st.records.filter (fun r => r.isValid)).foldl
    (sweepStep "CORRUPTED_FILE" (fun disk r => !fileValid (diskLookup disk r.path)))
    { st with passTrace := st.passTrace ++ [RecoveryPass.integrityCheck] }

/-- Python `pathlib.Path(...).parts` for the slash paths used here. -/
def pathParts (p : String) : List String :=
  let comps := ((List.splitOn '/' p.data).map (fun cs => String.mk cs)).filter
    (fun c => !(c = ""))
  if strStartsWith p "/" then "/" :: comps else comps

def strEndsWith (s suf : String) : Bool :=
  List.isSuffixOf suf.data s.data

/-- One iteration of `recover_orphaned_files`: skip files already
indexed; otherwise, when the path has at least three components, queue
an insert with `camera_id = parts[-3]`, `start_time_ms` from mtime,
`duration_ms = 3000` and the stat size. -/
def orphanStep (indexedPaths : List String) (st : RmState) (f : RmFile) : RmState :=
  if indexedPaths.contains f.path then st
  else if 3 ≤ (pathParts f.path).length then
    { st with queuedInserts := st.queuedInserts ++
        [{ camera := (pathParts f.path).getD ((pathParts f.path).length - 3) "",
           path := f.path, startTimeMs := f.mtimeMs, durationMs := 3000,
           fileSize := f.content.length }] }
  else st

/-- `RecoveryManager._find_orphaned_files`, i.e.
`RecordingIndex.recover_orphaned_files(storage, max_batch_size=100)`:
snapshot the indexed paths, list the on-disk `.mp4` files, truncate to
the first 100, and queue an insert for each unindexed one. -/
def orphanPass (st : RmState) : RmState :=
  let indexedPaths := st.records.map (fun r => r.path)
  let mp4Files := st.disk.filter (fun f => strEndsWith f.path ".mp4")
  (mp4Files.take 100).foldl (orphanStep indexedPaths)
    { st with passTrace := st.passTrace ++ [RecoveryPass.orphanScan] }

/-- `RecoveryManager.verify_and_recover`: step 1 missing files, step 2
orphan scan, step 3 integrity check. -/
def verifyAndRecover (st : RmState) : RmState :=
  integrityPass (orphanPass (missingPass st))

theorem sweepStep_disk (e : String) (cond : List RmFile → RmRecord → Bool)
    (st : RmState) (r : RmRecord) : (sweepStep e cond st r).disk = st.disk := by
  unfold sweepStep; split <;> rfl

theorem sweepStep_queued (e : String) (cond : List RmFile → RmRecord → Bool)
    (st : RmState) (r : RmRecord) :
    (sweepStep e cond st r).queuedInserts = st.queuedInserts := by
  unfold sweepStep; split <;> rfl

theorem sweepStep_trace (e : String) (cond : List RmFile → RmRecord → Bool)
    (st : RmState) (r : RmRecord) : (sweepStep e cond st r).passTrace = st.passTrace := by
  unfold sweepStep; split <;> rfl

theorem foldl_sweep_disk (e : String) (cond : List RmFile → RmRecord → Bool) :
    ∀ (l : List RmRecord) (st : RmState),
      (l.foldl (sweepStep e cond) st).disk = st.disk := by
  intro l
  induction l with
  | nil => intro st; rfl
  | cons x xs ih => intro st; rw [List.foldl_cons, ih, sweepStep_disk]

theorem foldl_sweep_queued (e : String) (cond : List RmFile → RmRecord → Bool) :
    ∀ (l : List RmRecord) (st : RmState),
      (l.foldl (sweepStep e cond) st).queuedInserts = st.queuedInserts := by
  intro l
  induction l with
  | nil => intro st; rfl
  | cons x xs ih => intro st; rw [List.foldl_cons, ih, sweepStep_queued]

theorem foldl_sweep_trace (e : String) (cond : List RmFile → RmRecord → Bool) :
    ∀ (l : List RmRecord) (st : RmState),
      (l.foldl (sweepStep e cond) st).passTrace = st.passTrace := by
  intro l
  induction l with
  | nil => intro st; rfl
  | cons x xs ih => intro st; rw [List.foldl_cons, ih, sweepStep_trace]

theorem rmMarkInvalid_map_path (l : List RmRecord) (p : String) :
    (rmMarkInvalid l p).map (fun r => r.path) = l.map (fun r => r.path) := by
  induction l with
  | nil => rfl
  | cons x xs ih =>
    simp only [rmMarkInvalid, List.map_cons] at ih ⊢
    rw [ih]
    by_cases h : x.path = p
    · rw [if_pos h]
    · rw [if_neg h]

theorem foldl_sweep_map_path (e : String) (cond : List RmFile → RmRecord → Bool) :
    ∀ (l : List RmRecord) (st : RmState),
      (l.foldl (sweepStep e cond) st).records.map (fun r => r.path)
        = st.records.map (fun r => r.path) := by
  intro l
  induction l with
  | nil => intro st; rfl
  | cons x xs ih =>
    intro st
    rw [List.foldl_cons, ih]
    unfold sweepStep
    split
    · exact rmMarkInvalid_map_path st.records x.path
    · rfl

theorem rmMarkInvalid_invalid_at (l : List RmRecord) (p : String) :
    ∀ r' ∈ rmMarkInvalid l p, r'.path = p → r'.isValid = false := by
  intro r' hr' hp
  simp only [rmMarkInvalid, List.mem_map] at hr'
  obtain ⟨r, _, heq⟩ := hr'
  by_cases h : r.path = p
  · rw [if_pos h] at heq
    subst heq
    rfl
  · rw [if_neg h] at heq
    subst heq
    exact absurd hp h

theorem rmMarkInvalid_persist (l : List RmRecord) (p q : String)
    (h : ∀ r' ∈ l, r'.path = q → r'.isValid = false) :
    ∀ r' ∈ rmMarkInvalid l p, r'.path = q → r'.isValid = false := by
  intro r' hr' hq
  simp only [rmMarkInvalid, List.mem_map] at hr'
  obtain ⟨r, hr, heq⟩ := hr'
  by_cases hp : r.path = p
  · rw [if_pos hp] at heq
    subst heq
    rfl
  · rw [if_neg hp] at heq
    subst heq
    exact h r hr hq

theorem foldl_sweep_invalid_persist (e : String) (cond : List RmFile → RmRecord → Bool)
    (q : String) :
    ∀ (l : List RmRecord) (st : RmState),
      (∀ r' ∈ st.records, r'.path = q → r'.isValid = false) →
      ∀ r' ∈ (l.foldl (sweepStep e cond) st).records, r'.path = q → r'.isValid = false := by
  intro l
  induction l with
  | nil => intro st h; exact h
  | cons x xs ih =>
    intro st h
    rw [List.foldl_cons]
    apply ih
    unfold sweepStep
    split
    · exact rmMarkInvalid_persist st.records x.path q h
    · exact h

theorem foldl_sweep_log_mono (e : String) (cond : List RmFile → RmRecord → Bool) :
    ∀ (l : List RmRecord) (st : RmState) (x : String × String),
      x ∈ st.recoveryLog → x ∈ (l.foldl (sweepStep e cond) st).recoveryLog := by
  intro l
  induction l with
  | nil => intro st x h; exact h
  | cons y ys ih =>
    intro st x h
    rw [List.foldl_cons]
    apply ih
    unfold sweepStep
    split
    · exact List.mem_append_left _ h
    · exact h

theorem foldl_sweep_marks (e : String) (cond : List RmFile → RmRecord → Bool) :
    ∀ (l : List RmRecord) (st : RmState) (r : RmRecord), r ∈ l →
      cond st.disk r = true →
      (∀ r' ∈ (l.foldl (sweepStep e cond) st).records, r'.path = r.path → r'.isValid = false)
        ∧ (r.camera, e) ∈ (l.foldl (sweepStep e cond) st).recoveryLog := by
  intro l
  induction l with
  | nil => intro st r hr; simp at hr
  | cons x xs ih =>
    intro st r hr hcond
    rw [List.foldl_cons]
    rcases List.mem_cons.mp hr with heq | hmem
    · subst heq
      have hstep : sweepStep e cond st r
          = { st with records := rmMarkInvalid st.records r.path,
                      recoveryLog := st.recoveryLog ++ [(r.camera, e)] } := by
        unfold sweepStep
        rw [if_pos hcond]
      rw [hstep]
      constructor
      · exact foldl_sweep_invalid_persist e cond r.path xs _
          (rmMarkInvalid_invalid_at st.records r.path)
      · exact foldl_sweep_log_mono e cond xs _ _ (by simp)
    · have hd : cond (sweepStep e cond st x).disk r = true := by
        rw [sweepStep_disk]; exact hcond
      exact ih (sweepStep e cond st x) r hmem hd

theorem orphanStep_fields (ips : List String) (st : RmState) (f : RmFile) :
    (orphanStep ips st f).records = st.records
      ∧ (orphanStep ips st f).disk = st.disk
      ∧ (orphanStep ips st f).recoveryLog = st.recoveryLog
      ∧ (orphanStep ips st f).passTrace = st.passTrace := by
  unfold orphanStep
  split
  · exact ⟨rfl, rfl, rfl, rfl⟩
  · split
    · exact ⟨rfl, rfl, rfl, rfl⟩
    · exact ⟨rfl, rfl, rfl, rfl⟩

theorem foldl_orphan_fields (ips : List String) :
    ∀ (l : List RmFile) (st : RmState),
      (l.foldl (orphanStep ips) st).records = st.records
        ∧ (l.foldl (orphanStep ips) st).disk = st.disk
        ∧ (l.foldl (orphanStep ips) st).recoveryLog = st.recoveryLog
        ∧ (l.foldl (orphanStep ips) st).passTrace = st.passTrace := by
  intro l
  induction l with
  | nil => intro st; exact ⟨rfl, rfl, rfl, rfl⟩
  | cons x xs ih =>
    intro st
    rw [List.foldl_cons]
    have h1 := ih (orphanStep ips st x)
    have h2 := orphanStep_fields ips st x
    exact ⟨h1.1.trans h2.1, h1.2.1.trans h2.2.1, h1.2.2.1.trans h2.2.2.1,
      h1.2.2.2.trans h2.2.2.2⟩

theorem foldl_orphan_queued_mono (ips : List String) :
    ∀ (l : List RmFile) (st : RmState) (x : OrphanInsert),
      x ∈ st.queuedInserts → x ∈ (l.foldl (orphanStep ips) st).queuedInserts := by
  intro l
  induction l with
  | nil => intro st x h; exact h
  | cons y ys ih =>
    intro st x h
    rw [List.foldl_cons]
    apply ih
    unfold orphanStep
    split
    · exact h
    · split
      · exact List.mem_append_left _ h
      · exact h

theorem foldl_orphan_queues (ips : List String) :
    ∀ (l : List RmFile) (st : RmState) (f : RmFile), f ∈ l →
      ips.contains f.path = false → 3 ≤ (pathParts f.path).length →
      ({ camera := (pathParts f.path).getD ((pathParts f.path).length - 3) "",
         path := f.path, startTimeMs := f.mtimeMs, durationMs := 3000,
         fileSize := f.content.length } : OrphanInsert)
        ∈ (l.foldl (orphanStep ips) st).queuedInserts := by
  intro l
  induction l with
  | nil => intro st f hf; simp at hf
  | cons x xs ih =>
    intro st f hf hni hlen
    rw [List.foldl_cons]
    rcases List.mem_cons.mp hf with heq | hmem
    · subst heq
      have hstep : orphanStep ips st f
          = { st with queuedInserts := st.queuedInserts ++
              [{ camera := (pathParts f.path).getD ((pathParts f.path).length - 3) "",
                 path := f.path, startTimeMs := f.mtimeMs, durationMs := 3000,
                 fileSize := f.content.length }] } := by
        unfold orphanStep
        rw [if_neg (by rw [hni]; exact Bool.false_ne_true), if_pos hlen]
      rw [hstep]
      exact foldl_orphan_queued_mono ips xs _ _ (by simp)
    · exact ih (orphanStep ips st x) f hmem hni hlen

theorem missingPass_fields (st : RmState) :
    (missingPass st).disk = st.disk
      ∧ (missingPass st).queuedInserts = st.queuedInserts
      ∧ (missingPass st).passTrace = st.passTrace ++ [RecoveryPass.missingFiles]
      ∧ (missingPass st).records.map (fun r => r.path)
          = st.records.map (fun r => r.path) := by
  unfold missingPass
  exact ⟨foldl_sweep_disk _ _ _ _, foldl_sweep_queued _ _ _ _,
    foldl_sweep_trace _ _ _ _, foldl_sweep_map_path _ _ _ _⟩

theorem integrityPass_fields (st : RmState) :
    (integrityPass st).disk = st.disk
      ∧ (integrityPass st).queuedInserts = st.queuedInserts
      ∧ (integrityPass st).passTrace = st.passTrace ++ [RecoveryPass.integrityCheck] := by
  unfold integrityPass
  exact ⟨foldl_sweep_disk _ _ _ _, foldl_sweep_queued _ _ _ _, foldl_sweep_trace _ _ _ _⟩

theorem orphanPass_fields (st : RmState) :
    (orphanPass st).records = st.records
      ∧ (orphanPass st).disk = st.disk
      ∧ (orphanPass st).recoveryLog = st.recoveryLog
      ∧ (orphanPass st).passTrace = st.passTrace ++ [RecoveryPass.orphanScan] := by
  unfold orphanPass
  have h := foldl_orphan_fields (st.records.map (fun r => r.path))
    ((st.disk.filter (fun f => strEndsWith f.path ".mp4")).take 100)
    { st with passTrace := st.passTrace ++ [RecoveryPass.orphanScan] }
  exact ⟨h.1, h.2.1, h.2.2.1, h.2.2.2⟩

/-- C7 counterexample: on any run — here from a state with one indexed
segment whose file is gone — the reconciler's banner/trace order is
missing-file pass, then the orphan pass, then the integrity pass, not
the claimed missing → integrity → orphan order. -/
theorem verifyAndRecover_pass_order :
    let st0 : RmState :=
      { records := [{ camera := "cam1", path := "/storage/cam1/a.mp4", isValid := true }],
        disk := [], recoveryLog := [], queuedInserts := [], passTrace := [] }
    (verifyAndRecover st0).passTrace
        = [RecoveryPass.missingFiles, RecoveryPass.orphanScan, RecoveryPass.integrityCheck]
      ∧ (verifyAndRecover st0).passTrace
          ≠ [RecoveryPass.missingFiles, RecoveryPass.integrityCheck,
             RecoveryPass.orphanScan] := by
  exact ⟨by decide, by decide⟩

/-- C7 amended: each reconciler run executes the missing-file pass, then
the *orphan* pass, then the *integrity* pass, in that order.  Every
valid indexed segment whose file is absent is marked invalid with a
`MISSING_FILE` event; every segment still valid when the integrity pass
starts whose file fails `_is_file_valid` is marked invalid with a
`CORRUPTED_FILE` event; and each of the first 100 on-disk `.mp4` files
missing from the index (with a deep-enough path) is queued for
re-insertion with mtime start, 3000 ms duration and its stat size. -/
theorem verifyAndRecover_three_passes (st : RmState) :
    ((verifyAndRecover st).passTrace
        = st.passTrace ++ [RecoveryPass.missingFiles, RecoveryPass.orphanScan,
            RecoveryPass.integrityCheck])
      ∧ (∀ r ∈ st.records, r.isValid = true → diskLookup st.disk r.path = none →
          (∀ r' ∈ (verifyAndRecover st).records, r'.path = r.path → r'.isValid = false)
            ∧ (r.camera, "MISSING_FILE") ∈ (verifyAndRecover st).recoveryLog)
      ∧ (∀ r ∈ (orphanPass (missingPass st)).records, r.isValid = true →
          fileValid (diskLookup st.disk r.path) = false →
          (∀ r' ∈ (verifyAndRecover st).records, r'.path = r.path → r'.isValid = false)
            ∧ (r.camera, "CORRUPTED_FILE") ∈ (verifyAndRecover st).recoveryLog)
      ∧ (∀ f ∈ (st.disk.filter (fun f => strEndsWith f.path ".mp4")).take 100,
          (st.records.map (fun r => r.path)).contains f.path = false →
          3 ≤ (pathParts f.path).length →
          ({ camera := (pathParts f.path).getD ((pathParts f.path).length - 3) "",
             path := f.path, startTimeMs := f.mtimeMs, durationMs := 3000,
             fileSize := f.content.length } : OrphanInsert)
            ∈ (verifyAndRecover st).queuedInserts) := by
  have hm := missingPass_fields st
  have ho := orphanPass_fields (missingPass st)
  have hi := integrityPass_fields (orphanPass (missingPass st))
  refine ⟨?_, ?_, ?_, ?_⟩
  · show (integrityPass (orphanPass (missingPass st))).passTrace = _
    rw [hi.2.2, ho.2.2.2, hm.2.2.1]
    simp
  · intro r hr hv hmiss
    -- the missing pass marks and logs r; later passes preserve both
    have hsnap : r ∈ st.records.filter (fun r => r.isValid) :=
      List.mem_filter.mpr ⟨hr, by simp [hv]⟩
    have hcond : (fun disk r => (diskLookup disk r.path).isNone)
        ({ st with passTrace := st.passTrace ++ [RecoveryPass.missingFiles] } : RmState).disk
        r = true := by
      simp only
      rw [hmiss]
      rfl
    have hmark := foldl_sweep_marks "MISSING_FILE"
      (fun disk r => (diskLookup disk r.path).isNone)
      (st.records.filter (fun r => r.isValid))
      { st with passTrace := st.passTrace ++ [RecoveryPass.missingFiles] } r hsnap hcond
    have hmark1 : ∀ r' ∈ (missingPass st).records, r'.path = r.path → r'.isValid = false :=
      hmark.1
    have hmark2 : (r.camera, "MISSING_FILE") ∈ (missingPass st).recoveryLog := hmark.2
    constructor
    · show ∀ r' ∈ (integrityPass (orphanPass (missingPass st))).records, _
      unfold integrityPass
      apply foldl_sweep_invalid_persist
      intro r' hr' hp
      rw [ho.1] at hr'
      exact hmark1 r' hr' hp
    · show (r.camera, "MISSING_FILE") ∈ (integrityPass (orphanPass (missingPass st))).recoveryLog
      unfold integrityPass
      apply foldl_sweep_log_mono
      show _ ∈ (orphanPass (missingPass st)).recoveryLog
      rw [ho.2.2.1]
      exact hmark2
  · intro r hr hv hbad
    have hsnap : r ∈ (orphanPass (missingPass st)).records.filter (fun r => r.isValid) :=
      List.mem_filter.mpr ⟨hr, by simp [hv]⟩
    have hdisk : ({ orphanPass (missingPass st) with
        passTrace := (orphanPass (missingPass st)).passTrace
          ++ [RecoveryPass.integrityCheck] } : RmState).disk = st.disk := by
      show (orphanPass (missingPass st)).disk = st.disk
      rw [ho.2.1, hm.1]
    have hcond : (fun disk r => !fileValid (diskLookup disk r.path))
        ({ orphanPass (missingPass st) with
          passTrace := (orphanPass (missingPass st)).passTrace
            ++ [RecoveryPass.integrityCheck] } : RmState).disk r = true := by
      simp only
      rw [hdisk, hbad]
      rfl
    exact foldl_sweep_marks "CORRUPTED_FILE"
      (fun disk r => !fileValid (diskLookup disk r.path))
      ((orphanPass (missingPass st)).records.filter (fun r => r.isValid))
      _ r hsnap hcond
  · intro f hf hni hlen
    -- after the missing pass, the indexed path set and the disk are unchanged
    have hqueued :
        ({ camera := (pathParts f.path).getD ((pathParts f.path).length - 3) "",
           path := f.path, startTimeMs := f.mtimeMs, durationMs := 3000,
           fileSize := f.content.length } : OrphanInsert)
          ∈ (orphanPass (missingPass st)).queuedInserts := by
      unfold orphanPass
      apply foldl_orphan_queues
      · rw [hm.1]
        exact hf
      · rw [hm.2.2.2]
        exact hni
      · exact hlen
    show _ ∈ (integrityPass (orphanPass (missingPass st))).queuedInserts
    rw [hi.2.1]
    exact hqueued

/-- A concrete reconciler run: one valid indexed segment with a missing
file, one valid indexed segment whose on-disk file fails the integrity
predicate (a 16-byte truncated file, below the 1024-byte floor), and one
unindexed orphan `.mp4`. -/
def demoRmState : RmState :=
  { records := [{ camera := "cam1", path := "/storage/cam1/2025-01-01/a.mp4", isValid := true },
                { camera := "cam1", path := "/storage/cam1/2025-01-01/b.mp4", isValid := true }],
    disk := [{ path := "/storage/cam1/2025-01-01/b.mp4",
               content := List.replicate 16 0, mtimeMs := 1000 },
             { path := "/storage/cam1/2025-01-01/c.mp4",
               content := List.replicate 16 7, mtimeMs := 2000 }],
    recoveryLog := [], queuedInserts := [], passTrace := [] }

theorem verifyAndRecover_three_passes_witness :
    ((verifyAndRecover demoRmState).passTrace
        = [RecoveryPass.missingFiles, RecoveryPass.orphanScan, RecoveryPass.integrityCheck])
      ∧ (∀ r' ∈ (verifyAndRecover demoRmState).records,
            r'.path = "/storage/cam1/2025-01-01/a.mp4" → r'.isValid = false)
      ∧ ("cam1", "MISSING_FILE") ∈ (verifyAndRecover demoRmState).recoveryLog
      ∧ (∀ r' ∈ (verifyAndRecover demoRmState).records,
            r'.path = "/storage/cam1/2025-01-01/b.mp4" → r'.isValid = false)
      ∧ ("cam1", "CORRUPTED_FILE") ∈ (verifyAndRecover demoRmState).recoveryLog
      ∧ ({ camera := "cam1", path := "/storage/cam1/2025-01-01/c.mp4",
           startTimeMs := 2000, durationMs := 3000, fileSize := 16 } : OrphanInsert)
          ∈ (verifyAndRecover demoRmState).queuedInserts := by
  have h := verifyAndRecover_three_passes demoRmState
  have hr0 :
      ({ camera := "cam1", path := "/storage/cam1/2025-01-01/a.mp4",
         isValid := true } : RmRecord) ∈ demoRmState.records := by decide
  have hrb :
      ({ camera := "cam1", path := "/storage/cam1/2025-01-01/b.mp4",
         isValid := true } : RmRecord) ∈ (orphanPass (missingPass demoRmState)).records := by
    rw [(orphanPass_fields (missingPass demoRmState)).1]
    decide
  have hfc :
      ({ path := "/storage/cam1/2025-01-01/c.mp4",
         content := List.replicate 16 7, mtimeMs := 2000 } : RmFile)
        ∈ (demoRmState.disk.filter (fun f => strEndsWith f.path ".mp4")).take 100 := by
    decide
  have h1 := h.2.1 _ hr0 (by decide) (by decide)
  have h2 := h.2.2.1 _ hrb (by decide) (by decide)
  have h3 := h.2.2.2 _ hfc (by decide) (by decide)
  exact ⟨h.1, h1.1, h1.2, h2.1, h2.2, by simpa using h3⟩

/-! ## Retention engine (`src/services/retention_manager.py`)

`cleanup_old_recordings` asks `get_old_segments(cutoff)` (no camera
filter) for all rows with `start_time < cutoff` ordered ascending, then
walks them: delete the file if it exists, collect its path, and flush a
`delete_segments_batch` every 1000 collected paths plus a final flush.
Only the fields this pass touches are modelled; the on-disk state is the
set of file paths (sizes feed logging only). -/

structure RetSegment where
  camera : String
  startMs : ℤ
  path : String
  deriving Repr, DecidableEq

structure RetState where
  index : List RetSegment
  disk : List String
  deriving Repr, DecidableEq

instance : IsTotal RetSegment (fun a b => a.startMs ≤ b.startMs) :=
  ⟨fun a b => le_total a.startMs b.startMs⟩

instance : IsTrans RetSegment (fun a b => a.startMs ≤ b.startMs) :=
  ⟨fun _ _ _ h1 h2 => le_trans h1 h2⟩

/-- `RecordingIndex.get_old_segments(before_date)` (the camera-less form
used by the scheduled sweep): `start_time < ?`, `ORDER BY start_time
ASC` (a stable sort of the stored rows). -/
def getOldSegments (index : List RetSegment) (cutoff : ℤ) : List RetSegment :=
  List.insertionSort (fun a b => a.startMs ≤ b.startMs)
    (index.filter (fun s => s.startMs < cutoff))

/-- The deletion loop of `cleanup_old_recordings`: for each old segment,
if its file exists delete it and append the path to the pending batch;
flush `delete_segments_batch` when the batch reaches 1000 and once more
at the end.  Returns the final state and the segments whose files were
deleted, in deletion order. -/
def retCleanupLoop : List RetSegment → RetState → List String → List RetSegment →
    RetState × List RetSegment
  | [], st, batch, order =>
    ({ st with index := st.index.filter (fun r => !(batch.contains r.path)) }, order)
  | s :: rest, st, batch, order =>
    if st.disk.contains s.path then
      if 1000 ≤ (batch ++ [s.path]).length then
        retCleanupLoop rest
          { index := st.index.filter (fun r => !((batch ++ [s.path]).contains r.path)),
            disk := st.disk.filter (fun p => !(p = s.path)) }
          [] (order ++ [s])
      else
        retCleanupLoop rest
          { st with disk := st.disk.filter (fun p => !(p = s.path)) }
          (batch ++ [s.path]) (order ++ [s])
    else
      retCleanupLoop rest st batch order

/-- `RetentionManager.cleanup_old_recordings` with the manager's
(clamped) `retention_days`: `cutoff = now − retention_days` and the
batched deletion walk. -/
def cleanupOldRecordings (st : RetState) (now : ℤ) (retentionDays : ℕ) :
    RetState × List RetSegment :=
  let cutoff := now - (retentionDays : ℤ) * 86400000
  retCleanupLoop (getOldSegments st.index cutoff) st [] []

theorem mem_getOldSegments (index : List RetSegment) (cutoff : ℤ) (s : RetSegment) :
    s ∈ getOldSegments index cutoff ↔ s ∈ index ∧ s.startMs < cutoff := by
  unfold getOldSegments
  rw [List.mem_insertionSort, List.mem_filter]
  simp

theorem retLoop_disk_subset :
    ∀ (l : List RetSegment) (st : RetState) (batch : List String)
      (order : List RetSegment) (p : String),
      p ∈ (retCleanupLoop l st batch order).1.disk → p ∈ st.disk := by
  intro l
  induction l with
  | nil => intro st batch order p hp; exact hp
  | cons s rest ih =>
    intro st batch order p hp
    simp only [retCleanupLoop] at hp
    by_cases hc : st.disk.contains s.path = true
    · rw [if_pos hc] at hp
      by_cases hb : 1000 ≤ (batch ++ [s.path]).length
      · rw [if_pos hb] at hp
        exact List.mem_of_mem_filter (ih _ _ _ _ hp)
      · rw [if_neg hb] at hp
        exact List.mem_of_mem_filter (ih _ _ _ _ hp)
    · rw [if_neg hc] at hp
      exact ih _ _ _ _ hp

theorem retLoop_disk_keep :
    ∀ (l : List RetSegment) (st : RetState) (batch : List String)
      (order : List RetSegment) (p : String),
      p ∈ st.disk → (∀ u ∈ l, u.path ≠ p) →
      p ∈ (retCleanupLoop l st batch order).1.disk := by
  intro l
  induction l with
  | nil => intro st batch order p hp _; exact hp
  | cons s rest ih =>
    intro st batch order p hp hall
    have hs : s.path ≠ p := hall s (by simp)
    have hp' : p ∈ st.disk.filter (fun q => !(q = s.path)) := by
      rw [List.mem_filter]
      refine ⟨hp, ?_⟩
      simp only [Bool.not_eq_eq_eq_not, Bool.not_true, decide_eq_false_iff_not]
      exact fun h => hs h.symm
    have hrest : ∀ u ∈ rest, u.path ≠ p := fun u hu => hall u (by simp [hu])
    simp only [retCleanupLoop]
    by_cases hc : st.disk.contains s.path = true
    · rw [if_pos hc]
      by_cases hb : 1000 ≤ (batch ++ [s.path]).length
      · rw [if_pos hb]
        exact ih _ _ _ _ hp' hrest
      · rw [if_neg hb]
        exact ih _ _ _ _ hp' hrest
    · rw [if_neg hc]
      exact ih _ _ _ _ hp hrest

theorem retLoop_disk_gone :
    ∀ (l : List RetSegment) (st : RetState) (batch : List String)
      (order : List RetSegment) (s : RetSegment),
      s ∈ l → s.path ∉ (retCleanupLoop l st batch order).1.disk := by
  intro l
  induction l with
  | nil => intro st batch order s hs; simp at hs
  | cons x rest ih =>
    intro st batch order s hs
    rcases List.mem_cons.mp hs with heq | hmem
    · subst heq
      simp only [retCleanupLoop]
      by_cases hc : st.disk.contains s.path = true
      · rw [if_pos hc]
        have hgone : s.path ∉ st.disk.filter (fun p => !(p = s.path)) := by
          intro hmem'
          rcases List.mem_filter.mp hmem' with ⟨_, hpred⟩
          simp at hpred
        by_cases hb : 1000 ≤ (batch ++ [s.path]).length
        · rw [if_pos hb]
          intro habs
          exact hgone (retLoop_disk_subset _ _ _ _ _ habs)
        · rw [if_neg hb]
          intro habs
          exact hgone (retLoop_disk_subset _ _ _ _ _ habs)
      · rw [if_neg hc]
        intro habs
        have : s.path ∈ st.disk := retLoop_disk_subset _ _ _ _ _ habs
        rw [List.contains_iff_exists_mem_beq] at hc
        exact hc ⟨s.path, this, by simp⟩
    · simp only [retCleanupLoop]
      by_cases hc : st.disk.contains x.path = true
      · rw [if_pos hc]
        by_cases hb : 1000 ≤ (batch ++ [x.path]).length
        · rw [if_pos hb]; exact ih _ _ _ _ hmem
        · rw [if_neg hb]; exact ih _ _ _ _ hmem
      · rw [if_neg hc]; exact ih _ _ _ _ hmem

theorem retLoop_index_keep :
    ∀ (l : List RetSegment) (st : RetState) (batch : List String)
      (order : List RetSegment) (r : RetSegment),
      r ∈ st.index → (∀ p ∈ batch, p ≠ r.path) → (∀ u ∈ l, u.path ≠ r.path) →
      r ∈ (retCleanupLoop l st batch order).1.index := by
  intro l
  induction l with
  | nil =>
    intro st batch order r hr hbatch _
    simp only [retCleanupLoop]
    rw [List.mem_filter]
    refine ⟨hr, ?_⟩
    simp only [Bool.not_eq_eq_eq_not, Bool.not_true]
    rw [← Bool.not_eq_true, List.contains_iff_exists_mem_beq]
    rintro ⟨p, hp, hbeq⟩
    exact hbatch p hp (Eq.symm (by simpa using hbeq))
  | cons s rest ih =>
    intro st batch order r hr hbatch hall
    have hs : s.path ≠ r.path := hall s (by simp)
    have hrest : ∀ u ∈ rest, u.path ≠ r.path := fun u hu => hall u (by simp [hu])
    have hbatch' : ∀ p ∈ batch ++ [s.path], p ≠ r.path := by
      intro p hp
      rcases List.mem_append.mp hp with h | h
      · exact hbatch p h
      · simp only [List.mem_singleton] at h
        subst h
        exact hs
    simp only [retCleanupLoop]
    by_cases hc : st.disk.contains s.path = true
    · rw [if_pos hc]
      by_cases hb : 1000 ≤ (batch ++ [s.path]).length
      · rw [if_pos hb]
        refine ih _ _ _ _ ?_ (by simp) hrest
        rw [List.mem_filter]
        refine ⟨hr, ?_⟩
        simp only [Bool.not_eq_eq_eq_not, Bool.not_true]
        rw [← Bool.not_eq_true, List.contains_iff_exists_mem_beq]
        rintro ⟨p, hp, hbeq⟩
        exact hbatch' p hp (Eq.symm (by simpa using hbeq))
      · rw [if_neg hb]
        exact ih _ _ _ _ hr hbatch' hrest
    · rw [if_neg hc]
      exact ih _ _ _ _ hr hbatch hrest

theorem retLoop_order_sublist :
    ∀ (l : List RetSegment) (st : RetState) (batch : List String)
      (order : List RetSegment),
      ∃ d, (retCleanupLoop l st batch order).2 = order ++ d ∧ List.Sublist d l := by
  intro l
  induction l with
  | nil => intro st batch order; exact ⟨[], by simp [retCleanupLoop], List.Sublist.refl []⟩
  | cons s rest ih =>
    intro st batch order
    simp only [retCleanupLoop]
    by_cases hc : st.disk.contains s.path = true
    · rw [if_pos hc]
      by_cases hb : 1000 ≤ (batch ++ [s.path]).length
      · rw [if_pos hb]
        obtain ⟨d, hd, hsub⟩ := ih
          { index := st.index.filter
              (fun r => !((batch ++ [s.path]).contains r.path)),
            disk := st.disk.filter (fun p => !(p = s.path)) } [] (order ++ [s])
        exact ⟨s :: d, by rw [hd]; simp, List.Sublist.cons₂ s hsub⟩
      · rw [if_neg hb]
        obtain ⟨d, hd, hsub⟩ := ih
          { st with disk := st.disk.filter (fun p => !(p = s.path)) }
          (batch ++ [s.path]) (order ++ [s])
        exact ⟨s :: d, by rw [hd]; simp, List.Sublist.cons₂ s hsub⟩
    · rw [if_neg hc]
      obtain ⟨d, hd, hsub⟩ := ih st batch order
      exact ⟨d, hd, List.Sublist.cons s hsub⟩

/-- C6: under the index-level uniqueness constraints (`file_path` unique;
`(camera_id, start_time_ms)` unique, stated as: distinct records of one
camera have distinct start times), a scheduled retention sweep deletes
each camera's files in strictly ascending start-time order, and survival
is upward closed: if a segment is still in the index with its file still
on disk after the sweep, then so is every same-camera segment with a
later start time whose file was on disk before the sweep. -/
theorem retention_sweep_invariants (st : RetState) (now : ℤ) (retentionDays : ℕ)
    (hpaths : (st.index.map (fun s => s.path)).Nodup)
    (hstarts : ∀ a ∈ st.index, ∀ b ∈ st.index, a.camera = b.camera → a ≠ b →
        a.startMs ≠ b.startMs) :
    (∀ c : String,
        ((cleanupOldRecordings st now retentionDays).2.filter
            (fun s => s.camera = c)).Pairwise (fun a b => a.startMs < b.startMs))
      ∧ (∀ s ∈ st.index, ∀ t ∈ st.index, s.camera = t.camera → s.startMs < t.startMs →
          s ∈ (cleanupOldRecordings st now retentionDays).1.index →
          s.path ∈ (cleanupOldRecordings st now retentionDays).1.disk →
          t.path ∈ st.disk →
          t ∈ (cleanupOldRecordings st now retentionDays).1.index
            ∧ t.path ∈ (cleanupOldRecordings st now retentionDays).1.disk) := by
  have hinj := List.inj_on_of_nodup_map hpaths
  have hsorted : (getOldSegments st.index (now - (retentionDays : ℤ) * 86400000)).Pairwise
      (fun a b => a.startMs ≤ b.startMs) :=
    @List.sorted_insertionSort RetSegment (fun a b => a.startMs ≤ b.startMs) _ _ _ _
  have hnodupOld : (getOldSegments st.index (now - (retentionDays : ℤ) * 86400000)).Nodup := by
    have h1 : st.index.Nodup := hpaths.of_map _
    exact (List.Perm.nodup_iff (List.perm_insertionSort _ _)).mpr (h1.filter _)
  obtain ⟨d, hd, hsub⟩ := retLoop_order_sublist
    (getOldSegments st.index (now - (retentionDays : ℤ) * 86400000)) st [] []
  have horder : (cleanupOldRecordings st now retentionDays).2 = d := by
    show (retCleanupLoop _ st [] []).2 = d
    rw [hd]
    simp
  constructor
  · intro c
    rw [horder]
    have hpw : d.Pairwise (fun a b => a.startMs ≤ b.startMs) := hsorted.sublist hsub
    have hnd : d.Nodup := hnodupOld.sublist hsub
    have hpw2 : (d.filter (fun s => s.camera = c)).Pairwise
        (fun a b => a.startMs ≤ b.startMs) := hpw.sublist (List.filter_sublist d)
    have hnd2 : (d.filter (fun s => s.camera = c)).Nodup := hnd.filter _
    refine List.Pairwise.imp_of_mem ?_ (hpw2.and hnd2)
    intro a b ha hb hab
    obtain ⟨had, hac⟩ := List.mem_filter.mp ha
    obtain ⟨hbd, hbc⟩ := List.mem_filter.mp hb
    have hai : a ∈ st.index :=
      ((mem_getOldSegments _ _ a).mp (hsub.subset had)).1
    have hbi : b ∈ st.index :=
      ((mem_getOldSegments _ _ b).mp (hsub.subset hbd)).1
    have hcam : a.camera = b.camera := by
      have h1 : a.camera = c := by simpa using hac
      have h2 : b.camera = c := by simpa using hbc
      rw [h1, h2]
    exact lt_of_le_of_ne hab.1 (hstarts a hai b hbi hcam hab.2)
  · intro s hs t ht hcam hlt hsIdx hsDisk htDisk
    have hsNotOld : ¬ s.startMs < now - (retentionDays : ℤ) * 86400000 := by
      intro hold'
      exact retLoop_disk_gone _ st [] [] s
        ((mem_getOldSegments _ _ s).mpr ⟨hs, hold'⟩) hsDisk
    have hnop : ∀ u ∈ getOldSegments st.index (now - (retentionDays : ℤ) * 86400000),
        u.path ≠ t.path := by
      intro u hu heq
      obtain ⟨hui, hus⟩ := (mem_getOldSegments _ _ u).mp hu
      have : u = t := hinj hui ht heq
      subst this
      exact hsNotOld (lt_trans hlt hus)
    exact ⟨retLoop_index_keep _ st [] [] t ht (by simp) hnop,
      retLoop_disk_keep _ st [] [] t.path htDisk hnop⟩

/-- Ten days of history for one camera, retention 7 days at
`now = 10 days`: the 1-day-old… rather, the segment from day 1 ages out
(cutoff day 3), the day-5 and day-8 segments survive. -/
def demoRetState : RetState :=
  { index := [{ camera := "cam1", startMs := 1 * 86400000, path := "p1" },
              { camera := "cam1", startMs := 5 * 86400000, path := "p2" },
              { camera := "cam1", startMs := 8 * 86400000, path := "p3" }],
    disk := ["p1", "p2", "p3"] }

theorem retention_sweep_invariants_witness :
    ((demoRetState.index.map (fun s => s.path)).Nodup
        ∧ (∀ a ∈ demoRetState.index, ∀ b ∈ demoRetState.index,
            a.camera = b.camera → a ≠ b → a.startMs ≠ b.startMs))
      ∧ ((cleanupOldRecordings demoRetState (10 * 86400000) 7).2.filter
          (fun s => s.camera = "cam1")).Pairwise (fun a b => a.startMs < b.startMs)
      ∧ (({ camera := "cam1", startMs := 8 * 86400000, path := "p3" } : RetSegment)
            ∈ (cleanupOldRecordings demoRetState (10 * 86400000) 7).1.index
          ∧ "p3" ∈ (cleanupOldRecordings demoRetState (10 * 86400000) 7).1.disk) := by
  have h := retention_sweep_invariants demoRetState (10 * 86400000) 7
    (by decide) (by decide)
  refine ⟨⟨by decide, by decide⟩, h.1 "cam1", ?_⟩
  exact h.2 { camera := "cam1", startMs := 5 * 86400000, path := "p2" } (by decide)
    { camera := "cam1", startMs := 8 * 86400000, path := "p3" } (by decide)
    (by decide) (by decide) (by decide) (by decide) (by decide)

/-! ## Emergency cleanup (`src/services/emergency_cleanup_manager.py`)

`_check_and_cleanup` reads the health monitor's `percent_used` (embedded
as a function of the modelled disk: other usage plus the recording
files, over the capacity) and calls `_trigger_emergency_cleanup` at
≥ 0.90.  The trigger walks the retention policies sorted by
`retention_days` descending (Python's stable `sorted(..., reverse=True)`
= a stable insertion sort under the flipped relation), skips cameras in
the 5-minute cooldown, runs `_cleanup_camera` with
`max(1, retention_days // 2)` days and type `emergency`, stamps the
cooldown dict, and breaks as soon as usage is below 0.85.  Wall-clock
reads during one sweep are modelled as a single `now` (milliseconds);
the `total_deleted`/`total_freed` counters and the freed-bytes column
feed only the final alert/log and are not modelled; the
`cleanup_history` row keeps `(camera, deleted_count, type)`. -/

structure EmPolicy where
  cameraId : String
  retentionDays : ℕ
  deriving Repr, DecidableEq

structure EmSegment where
  camera : String
  startMs : ℤ
  path : String
  deriving Repr, DecidableEq

structure EmState where
  policies : List EmPolicy
  index : List EmSegment
  disk : List (String × ℕ)
  lastCleanup : List (String × ℤ)
  history : List (String × ℕ × String)
  totalBytes : ℚ
  otherBytes : ℚ
  deriving Repr, DecidableEq

instance : IsTotal EmSegment (fun a b => a.startMs ≤ b.startMs) :=
  ⟨fun a b => le_total a.startMs b.startMs⟩

instance : IsTrans EmSegment (fun a b => a.startMs ≤ b.startMs) :=
  ⟨fun _ _ _ h1 h2 => le_trans h1 h2⟩

/-- The health monitor's `percent_used / 100` as a function of the
modelled filesystem. -/
def usedFrac (st : EmState) : ℚ :=
  (st.otherBytes + (((st.disk.map (fun f => f.2)).sum : ℕ) : ℚ)) / st.totalBytes

/-- Python dict assignment for the `last_emergency_cleanup` map. -/
def listSet (l : List (String × ℤ)) (k : String) (v : ℤ) : List (String × ℤ) :=
  if l.any (fun e => e.1 = k) then
    l.map (fun e => if e.1 = k then (k, v) else e)
  else l ++ [(k, v)]

/-- `RecordingIndex.get_old_segments(before_date, camera_id)`:
`start_time < ? AND camera_id = ?`, `ORDER BY start_time ASC`. -/
def emGetOldSegments (index : List EmSegment) (cutoff : ℤ) (camera : String) :
    List EmSegment :=
  List.insertionSort (fun a b => a.startMs ≤ b.startMs)
    (index.filter (fun s => decide (s.startMs < cutoff) && decide (s.camera = camera)))

/-- The deletion loop of `_cleanup_camera`: delete the file when it
exists (counting it), and delete the row from the index either way. -/
def emCamLoop : List EmSegment → List (String × ℕ) → List EmSegment → ℕ →
    ℕ × List (String × ℕ) × List EmSegment
  | [], disk, index, deleted => (deleted, disk, index)
  | s :: rest, disk, index, deleted =>
    if disk.any (fun f => f.1 = s.path) then
      emCamLoop rest (disk.filter (fun g => !(s.path = g.1)))
        (index.filter (fun r => !(s.path = r.path))) (deleted + 1)
    else
      emCamLoop rest disk (index.filter (fun r => !(s.path = r.path))) deleted

/-- `EmergencyCleanupManager._cleanup_camera`: fetch the camera's old
segments, run the deletion loop, and append a cleanup-history row when
anything was deleted. -/
def emCleanupCamera (st : EmState) (camera : String) (retentionDays : ℕ)
    (cleanupType : String) (now : ℤ) : ℕ × EmState :=
  let cutoff := now - (retentionDays : ℤ) * 86400000
  let old := emGetOldSegments st.index cutoff camera
  let r := emCamLoop old st.disk st.index 0
  (r.1,
    { st with
      disk := r.2.1, index := r.2.2,
      history := if 0 < r.1 then st.history ++ [(camera, r.1, cleanupType)]
                 else st.history })

/-- `sorted(policies, key=lambda p: p['retention_days'], reverse=True)`. -/
def emSortedPolicies (ps : List EmPolicy) : List EmPolicy :=
  List.insertionSort (fun a b => b.retentionDays ≤ a.retentionDays) ps

/-- The camera walk of `_trigger_emergency_cleanup`: skip cameras inside
the 300 s cooldown; otherwise clean with halved retention (floor one
day), stamp the cooldown map, and stop as soon as usage drops below
0.85. -/
def emLoop (now : ℤ) : List EmPolicy → EmState → EmState
  | [], st => st
  | p :: rest, st =>
    if now - (st.lastCleanup.lookup p.cameraId).getD 0 < 300000 then
      emLoop now rest st
    else
      let r := emCleanupCamera st p.cameraId (max 1 (p.retentionDays / 2)) "emergency" now
      let st' := { r.2 with lastCleanup := listSet r.2.lastCleanup p.cameraId now }
      if usedFrac st' < 85 / 100 then st'
      else emLoop now rest st'

def triggerEmergencyCleanup (st : EmState) (now : ℤ) : EmState :=
  emLoop now (emSortedPolicies st.policies) st

/-- `EmergencyCleanupManager._check_and_cleanup`. -/
def checkAndCleanup (st : EmState) (now : ℤ) : EmState :=
  if 90 / 100 ≤ usedFrac st then triggerEmergencyCleanup st now else st

/-- The per-camera deletion exactly as claim C5 words it: all of the
camera's indexed segments older than the cutoff are removed from disk
and from the index (as an unordered set), with an `emergency`-typed
cleanup record when any file was deleted. -/
def claimCameraSweep (st : EmState) (camera : String) (retentionDays : ℕ)
    (now : ℤ) : EmState :=
  let cutoff := now - (retentionDays : ℤ) * 86400000
  let victims := st.index.filter
    (fun s => decide (s.startMs < cutoff) && decide (s.camera = camera))
  let deleted := (victims.filter (fun s => st.disk.any (fun f => f.1 = s.path))).length
  { st with
    disk := st.disk.filter (fun f => !(victims.any (fun s => s.path = f.1))),
    index := st.index.filter (fun r => !(victims.any (fun s => s.path = r.path))),
    history := if 0 < deleted then st.history ++ [(camera, deleted, "emergency")]
               else st.history }

/-- The camera walk as claim C5 words it: descending retention order,
cooldown skip, halved retention with a one-day floor, stop below 0.85. -/
def claimLoop (now : ℤ) : List EmPolicy → EmState → EmState
  | [], st => st
  | p :: rest, st =>
    if now - (st.lastCleanup.lookup p.cameraId).getD 0 < 300000 then
      claimLoop now rest st
    else
      let swept := claimCameraSweep st p.cameraId (max 1 (p.retentionDays / 2)) now
      let st' := { swept with lastCleanup := listSet swept.lastCleanup p.cameraId now }
      if usedFrac st' < 85 / 100 then st'
      else claimLoop now rest st'

def claimEmergencyCleanup (st : EmState) (now : ℤ) : EmState :=
  claimLoop now (emSortedPolicies st.policies) st

theorem perm_any (l1 l2 : List EmSegment) (h : List.Perm l1 l2)
    (p : EmSegment → Bool) : l1.any p = l2.any p := by
  rcases hb : l2.any p with _ | _
  · rw [List.any_eq_false] at hb ⊢
    intro a ha
    exact hb a (h.mem_iff.mp ha)
  · rw [List.any_eq_true] at hb ⊢
    obtain ⟨a, ha, hpa⟩ := hb
    exact ⟨a, h.mem_iff.mpr ha, hpa⟩

theorem bool_not_pair (a b : Bool) : (!b && !a) = !(a || b) := by
  cases a <;> cases b <;> rfl

theorem emCamLoop_spec :
    ∀ (l : List EmSegment) (disk : List (String × ℕ)) (index : List EmSegment)
      (deleted : ℕ), ((l.map (fun s => s.path)).Nodup) →
      emCamLoop l disk index deleted
        = (deleted + (l.filter (fun s => disk.any (fun f => f.1 = s.path))).length,
           disk.filter (fun f => !(l.any (fun s => s.path = f.1))),
           index.filter (fun r => !(l.any (fun s => s.path = r.path)))) := by
  intro l
  induction l with
  | nil =>
    intro disk index deleted _
    simp [emCamLoop]
  | cons s rest ih =>
    intro disk index deleted hnd
    have hnd' : (rest.map (fun s => s.path)).Nodup := (List.nodup_cons.mp hnd).2
    have hsne : ∀ u ∈ rest, u.path ≠ s.path := by
      intro u hu heq
      have hmem : u.path ∈ rest.map (fun s => s.path) := List.mem_map_of_mem _ hu
      rw [heq] at hmem
      exact (List.nodup_cons.mp hnd).1 hmem
    simp only [emCamLoop]
    by_cases hc : disk.any (fun f => f.1 = s.path) = true
    · rw [if_pos hc, ih _ _ _ hnd']
      have hcount : (rest.filter
            (fun u => (disk.filter (fun g => !(s.path = g.1))).any
              (fun f => f.1 = u.path))).length
          = (rest.filter (fun u => disk.any (fun f => f.1 = u.path))).length := by
        congr 1
        apply List.filter_congr
        intro u hu
        rcases hb : disk.any (fun f => f.1 = u.path) with _ | _
        · rw [List.any_eq_false] at hb ⊢
          intro g hg
          exact hb g (List.mem_of_mem_filter hg)
        · rw [List.any_eq_true] at hb ⊢
          obtain ⟨g, hg, hgp⟩ := hb
          refine ⟨g, List.mem_filter.mpr ⟨hg, ?_⟩, hgp⟩
          simp only [Bool.not_eq_eq_eq_not, Bool.not_true, decide_eq_false_iff_not]
          intro hgs
          exact hsne u hu (by simp at hgp; rw [← hgp, ← hgs])
      have hfc : (s :: rest).filter (fun u => disk.any (fun f => f.1 = u.path))
          = s :: rest.filter (fun u => disk.any (fun f => f.1 = u.path)) :=
        List.filter_cons_of_pos hc
      refine Prod.ext ?_ (Prod.ext ?_ ?_)
      · show deleted + 1 + _ = deleted + _
        rw [hcount, hfc]
        simp only [List.length_cons]
        omega
      · show (disk.filter (fun g => !(s.path = g.1))).filter
              (fun f => !(rest.any (fun u => u.path = f.1))) = _
        rw [List.filter_filter]
        apply List.filter_congr
        intro g _
        rw [List.any_cons]
        exact bool_not_pair _ _
      · show (index.filter (fun r => !(s.path = r.path))).filter
              (fun f => !(rest.any (fun u => u.path = f.path))) = _
        rw [List.filter_filter]
        apply List.filter_congr
        intro r _
        rw [List.any_cons]
        exact bool_not_pair _ _
    · rw [if_neg hc, ih _ _ _ hnd']
      have hcF : disk.any (fun f => f.1 = s.path) = false :=
        Bool.eq_false_iff.mpr hc
      have hfc : (s :: rest).filter (fun u => disk.any (fun f => f.1 = u.path))
          = rest.filter (fun u => disk.any (fun f => f.1 = u.path)) :=
        List.filter_cons_of_neg (by simp [hcF])
      refine Prod.ext ?_ (Prod.ext ?_ ?_)
      · rw [hfc]
      · apply List.filter_congr
        intro g hg
        have hgs : (decide (s.path = g.1)) = false := by
          rw [List.any_eq_false] at hcF
          have h2 : ¬ (g.1 = s.path) := by simpa using hcF g hg
          simp only [decide_eq_false_iff_not]
          exact fun h => h2 h.symm
        rw [List.any_cons, hgs]
        simp
      · show (index.filter (fun r => !(s.path = r.path))).filter
              (fun f => !(rest.any (fun u => u.path = f.path))) = _
        rw [List.filter_filter]
        apply List.filter_congr
        intro r _
        rw [List.any_cons]
        exact bool_not_pair _ _

theorem emCleanupCamera_eq (st : EmState) (camera : String) (days : ℕ) (now : ℤ)
    (hidx : (st.index.map (fun s => s.path)).Nodup) :
    (emCleanupCamera st camera days "emergency" now).2
      = claimCameraSweep st camera days now := by
  have hperm : List.Perm
      (emGetOldSegments st.index (now - (days : ℤ) * 86400000) camera)
      (st.index.filter (fun s =>
        decide (s.startMs < now - (days : ℤ) * 86400000) && decide (s.camera = camera))) :=
    List.perm_insertionSort _ _
  have hnodupOld : ((emGetOldSegments st.index (now - (days : ℤ) * 86400000) camera).map
      (fun s => s.path)).Nodup := by
    have h1 : ((st.index.filter (fun s =>
        decide (s.startMs < now - (days : ℤ) * 86400000) && decide (s.camera = camera))).map
          (fun s => s.path)).Nodup :=
      hidx.sublist ((List.filter_sublist st.index).map _)
    exact (List.Perm.nodup_iff (hperm.map _)).mpr h1
  show ({ st with
      disk := (emCamLoop _ st.disk st.index 0).2.1,
      index := (emCamLoop _ st.disk st.index 0).2.2,
      history := if 0 < (emCamLoop _ st.disk st.index 0).1 then
          st.history ++ [(camera, (emCamLoop _ st.disk st.index 0).1, "emergency")]
        else st.history } : EmState) = _
  rw [emCamLoop_spec _ _ _ _ hnodupOld]
  have hD : st.disk.filter (fun f =>
        !((emGetOldSegments st.index (now - (days : ℤ) * 86400000) camera).any
          (fun s => s.path = f.1)))
      = st.disk.filter (fun f =>
        !((st.index.filter (fun s =>
            decide (s.startMs < now - (days : ℤ) * 86400000)
              && decide (s.camera = camera))).any (fun s => s.path = f.1))) :=
    List.filter_congr (fun f _ => by rw [perm_any _ _ hperm])
  have hI : st.index.filter (fun r =>
        !((emGetOldSegments st.index (now - (days : ℤ) * 86400000) camera).any
          (fun s => s.path = r.path)))
      = st.index.filter (fun r =>
        !((st.index.filter (fun s =>
            decide (s.startMs < now - (days : ℤ) * 86400000)
              && decide (s.camera = camera))).any (fun s => s.path = r.path))) :=
    List.filter_congr (fun r _ => by rw [perm_any _ _ hperm])
  have hcnt : ((emGetOldSegments st.index (now - (days : ℤ) * 86400000) camera).filter
        (fun s => st.disk.any (fun f => f.1 = s.path))).length
      = ((st.index.filter (fun s =>
          decide (s.startMs < now - (days : ℤ) * 86400000)
            && decide (s.camera = camera))).filter
          (fun s => st.disk.any (fun f => f.1 = s.path))).length :=
    (hperm.filter _).length_eq
  rw [hD, hI, hcnt, Nat.zero_add]
  rfl

theorem emLoop_eq_claimLoop (now : ℤ) :
    ∀ (ps : List EmPolicy) (st : EmState),
      (st.index.map (fun s => s.path)).Nodup →
      emLoop now ps st = claimLoop now ps st := by
  intro ps
  induction ps with
  | nil => intro st _; rfl
  | cons p rest ih =>
    intro st hidx
    simp only [emLoop, claimLoop]
    by_cases hcd : now - (st.lastCleanup.lookup p.cameraId).getD 0 < 300000
    · rw [if_pos hcd, if_pos hcd]
      exact ih st hidx
    · rw [if_neg hcd, if_neg hcd]
      rw [emCleanupCamera_eq st p.cameraId (max 1 (p.retentionDays / 2)) now hidx]
      have hidx' : (((claimCameraSweep st p.cameraId (max 1 (p.retentionDays / 2)) now).index).map
          (fun s => s.path)).Nodup :=
        hidx.sublist ((List.filter_sublist st.index).map _)
      by_cases h85 : usedFrac { claimCameraSweep st p.cameraId (max 1 (p.retentionDays / 2)) now with
          lastCleanup := listSet (claimCameraSweep st p.cameraId
            (max 1 (p.retentionDays / 2)) now).lastCleanup p.cameraId now } < 85 / 100
      · rw [if_pos h85, if_pos h85]
      · rw [if_neg h85, if_neg h85]
        exact ih _ hidx'

/-- C5: when the sampled usage is at least 0.90, `_check_and_cleanup`
performs exactly the sweep the claim describes — cameras in descending
`retention_days` order, cameras cleaned within the last 5 minutes
skipped, each visited camera's segments older than
`now − max(1, retention_days // 2)` days deleted with cleanup type
`emergency`, stopping as soon as usage falls below 0.85 — here stated as
equality with `claimEmergencyCleanup`, the direct transcription of the
claim's words, under the index's `file_path` uniqueness constraint. -/
theorem emergency_cleanup_behaviour (st : EmState) (now : ℤ)
    (hidx : (st.index.map (fun s => s.path)).Nodup)
    (husage : 90 / 100 ≤ usedFrac st) :
    checkAndCleanup st now = claimEmergencyCleanup st now := by
  unfold checkAndCleanup
  rw [if_pos husage]
  exact emLoop_eq_claimLoop now (emSortedPolicies st.policies) st hidx

/-- Spec scenario 4: disk at 91 %, two cameras with retention 30 d and
14 d, one over-age segment for the 30 d camera (now = day 20; halved
retention 15 d puts the cutoff at day 5, and the segment starts at
day 0). -/
def demoEmState : EmState :=
  { policies := [{ cameraId := "cam14", retentionDays := 14 },
                 { cameraId := "cam30", retentionDays := 30 }],
    index := [{ camera := "cam30", startMs := 0, path := "p30" }],
    disk := [("p30", 91)],
    lastCleanup := [], history := [],
    totalBytes := 100, otherBytes := 0 }

theorem emergency_cleanup_behaviour_witness :
    (demoEmState.index.map (fun s => s.path)).Nodup
      ∧ 90 / 100 ≤ usedFrac demoEmState
      ∧ checkAndCleanup demoEmState (1728000000 : ℤ)
          = claimEmergencyCleanup demoEmState (1728000000 : ℤ) :=
  ⟨by decide, by norm_num [usedFrac, demoEmState],
    emergency_cleanup_behaviour demoEmState 1728000000 (by decide)
      (by norm_num [usedFrac, demoEmState])⟩

end Aivms
